import Mathlib

/-!
# go-find-license: a verification development

A shallow embedding of `internal/list.go`, `internal/public.go` and of
`filterModules` from `cmd/go-find-license/main.go`.

* Go strings are Lean strings, Go slices are lists, `*Module` is a `Module` value.
* Go `error` values are the type `GoError`; a nil error is `none`.
* The parts of `net/http`, `goquery`, `cascadia` and `x/time/rate` the code calls are
  either parameters (`HTTPLib`, `HTTPClient`, the limiter outcome) or small models that
  follow the library code (`Find`, `Text`, `compile`, `TrimLeft`).
* `Fetcher.FetchLicenses` is a transition system: one step per statement of the
  dispatcher goroutine, of a worker goroutine, or of the consumer of the channel.
-/

namespace FindLicense

/-! ## internal/list.go -/

/-- Go struct `Module`. The field `Error any` is `none` for nil and otherwise carries the
loaded value in its JSON text form. -/
structure Module where
  Path : String
  Version : String
  Indirect : Bool
  Error : Option String
  deriving DecidableEq, Repr

/-- Go type `Modules []*Module`. -/
abbrev Modules := List Module

/-- Go method `Modules.Filter`: the loop appends to `r` every module that satisfies `p`. -/
def Modules.Filter (ms : Modules) (p : Module → Bool) : Modules :=
  ms.foldl (fun r module => if p module then r ++ [module] else r) []

/-- Go method `Modules.RemoveError`. -/
def Modules.RemoveError (ms : Modules) : Modules :=
  Modules.Filter ms (fun x => x.Error == none)

/-- Go method `Modules.RemoveIndirect`. -/
def Modules.RemoveIndirect (ms : Modules) : Modules :=
  Modules.Filter ms (fun x => !x.Indirect)

/-! ## cmd/go-find-license/main.go -/

/-- Go function `filterModules`; the flag `*ignoreIndirect` is the first argument. The
`ForEach` call between the two filters only writes log lines and is left out. -/
def filterModules (ignoreIndirect : Bool) (ms : Modules) : Modules :=
  let ms := if ignoreIndirect then Modules.RemoveIndirect ms else ms
  Modules.RemoveError ms

/-! ## Go errors -/

/-- Go `error` values: `errors.New` makes an `errorString`, `fmt.Errorf` with one `%w`
verb makes a `wrapError` holding the formatted message and the wrapped error. -/
inductive GoError where
  | errorString (s : String)
  | wrapError (msg : String) (err : GoError)
  deriving DecidableEq, Repr

/-- Go method `Error()`. -/
def GoError.Error : GoError → String
  | .errorString s => s
  | .wrapError msg _ => msg

/-- Go function `errors.Unwrap`. -/
def GoError.Unwrap : GoError → Option GoError
  | .errorString _ => none
  | .wrapError _ err => some err

/-- Go function `errors.Is`: walks the chain of wrapped errors looking for `target`. -/
def GoError.Is : GoError → GoError → Bool
  | .errorString s, target => decide (GoError.errorString s = target)
  | .wrapError msg err, target =>
    decide (GoError.wrapError msg err = target) || GoError.Is err target

/-- Go `fmt.Sprintf("%d", n)` for an `int`. -/
def fmtInt (n : Int) : String := toString n

/-- Go `fmt.Errorf(before ++ "%w" ++ after, err)` where `after` is already formatted. -/
def Errorf (before : String) (err : GoError) (after : String) : GoError :=
  .wrapError (before ++ err.Error ++ after) err

/-- Go variable `ErrStatusNotOK`. -/
def ErrStatusNotOK : GoError := .errorString "status not ok"

/-- Go variable `ErrLoadingModule`. -/
def ErrLoadingModule : GoError := .errorString "loading module"

/-! ## HTML documents, selectors (goquery and cascadia) -/

/-- Go `html.Node` tree: text, comment and element nodes. -/
inductive Node where
  | text (data : String)
  | comment (data : String)
  | element (data : String) (attr : List (String × String)) (children : List Node)
  deriving Repr

/-- Go `goquery.Document`: the children of the root document node. -/
structure Document where
  children : List Node
  deriving Repr

mutual
/-- Go `getNodeText` of goquery: the data of a text node, the concatenated text of the
children otherwise. -/
def getNodeText : Node → String
  | .text d => d
  | .comment _ => ""
  | .element _ _ cs => getNodesText cs
/-- Concatenated text of a list of sibling nodes. -/
def getNodesText : List Node → String
  | [] => ""
  | c :: cs => getNodeText c ++ getNodesText cs
end

/-- Go `Selection.Text()`: the texts of the selected nodes, concatenated. -/
def Text (sel : List Node) : String :=
  sel.foldl (fun buf n => buf ++ getNodeText n) ""

/-- A compiled simple selector of cascadia: `#id` or `.class`. -/
inductive Selector where
  | id (name : String)
  | cls (name : String)
  deriving DecidableEq, Repr

/-- Go `nameChar` of cascadia. -/
def nameChar (c : Char) : Bool :=
  ('a' ≤ c && c ≤ 'z') || ('A' ≤ c && c ≤ 'Z') || c == '_' || c.toNat > 127 || c == '-'
    || ('0' ≤ c && c ≤ '9')

/-- Go `nameStart` of cascadia. -/
def nameStart (c : Char) : Bool :=
  ('a' ≤ c && c ≤ 'z') || ('A' ≤ c && c ≤ 'Z') || c == '_' || c.toNat > 127

/-- Go `hexDigit` of cascadia. -/
def hexDigit (c : Char) : Bool :=
  ('0' ≤ c && c ≤ '9') || ('a' ≤ c && c ≤ 'f') || ('A' ≤ c && c ≤ 'F')

/-- Go `parser.parseName` of cascadia, on a selector that must be consumed to its end:
name characters stand for themselves, a backslash followed by a character that is neither
a line ending nor a hexadecimal digit stands for that character. Anything else (also a
hexadecimal escape, which this model leaves out) gives `none`. -/
def parseNameChars : List Char → Option (List Char)
  | [] => some []
  | '\\' :: c :: rest =>
    if c == '\r' || c == '\n' || c == '\x0c' || hexDigit c then none
    else (parseNameChars rest).map (fun r => c :: r)
  | c :: rest =>
    if nameChar c then (parseNameChars rest).map (fun r => c :: r) else none

/-- Go `parser.parseName`: the name must not be empty. -/
def parseName (s : List Char) : Option String :=
  match parseNameChars s with
  | some [] => none
  | some r => some (String.mk r)
  | none => none

/-- Go `parser.parseIdentifier` of cascadia: leading hyphens, then a name that starts
with a name-start character or an escape. -/
def parseIdentifier (s : List Char) : Option String :=
  let hyphens := s.takeWhile (fun c => c == '-')
  let rest := s.dropWhile (fun c => c == '-')
  match rest with
  | [] => none
  | c :: _ =>
    if nameStart c || c == '\\' then
      (parseName rest).map (fun r => String.mk hyphens ++ r)
    else none

/-- Go `cascadia.Compile` restricted to a single id selector or a single class selector;
every other selector string gives `none`. -/
def compile (selector : String) : Option Selector :=
  match selector.toList with
  | '#' :: rest => (parseName rest).map Selector.id
  | '.' :: rest => (parseIdentifier rest).map Selector.cls
  | _ => none

/-- Go `matchAttribute` of cascadia: some attribute of the element has the key and a
value accepted by `f`. -/
def matchAttribute (n : Node) (key : String) (f : String → Bool) : Bool :=
  match n with
  | .element _ attr _ => attr.any (fun a => a.1 == key && f a.2)
  | _ => false

/-- White space characters that separate class names in cascadia `matchInclude`. -/
def isClassSep (c : Char) : Bool :=
  c == ' ' || c == '\t' || c == '\r' || c == '\n' || c == '\x0c'

/-- The loop of Go `matchInclude`: `cur` is the part of the current token read so far
(reversed), the list is what is left of the attribute value. -/
def matchIncludeLoop (val : List Char) : List Char → List Char → Bool
  | cur, [] => !cur.isEmpty && cur.reverse == val
  | cur, c :: rest =>
    if isClassSep c then (cur.reverse == val) || matchIncludeLoop val [] rest
    else matchIncludeLoop val (c :: cur) rest

/-- Go `matchInclude` of cascadia (case sensitive): `val` is one of the tokens of `s`
separated by white space. -/
def matchInclude (val : String) (s : String) : Bool :=
  matchIncludeLoop val.toList [] s.toList

/-- Go method `Match` of the cascadia selectors `idSelector` and `classSelector`. -/
def Selector.Match (sel : Selector) (n : Node) : Bool :=
  match sel with
  | .id name => matchAttribute n "id" (fun s => s == name)
  | .cls name => matchAttribute n "class" (fun s => matchInclude name s)

mutual
/-- Go `Selector.MatchAll` of cascadia: the node and its descendants that match, in
document order. -/
def matchAll (sel : Selector) : Node → List Node
  | .text d => if sel.Match (.text d) then [.text d] else []
  | .comment d => if sel.Match (.comment d) then [.comment d] else []
  | .element d attr cs =>
    (if sel.Match (.element d attr cs) then [.element d attr cs] else [])
      ++ matchAllList sel cs
/-- Matches among a list of siblings and their descendants. -/
def matchAllList (sel : Selector) : List Node → List Node
  | [] => []
  | c :: cs => matchAll sel c ++ matchAllList sel cs
end

/-- Go `Document.Find(selector)` of goquery: the matches among the descendants of the
root; a selector that does not compile matches nothing. -/
def Document.Find (doc : Document) (selector : String) : List Node :=
  match compile selector with
  | some sel => matchAllList sel doc.children
  | none => []

/-- Go `strings.TrimLeft(s, cutset)`: removes every leading character that occurs in
`cutset`. -/
def TrimLeft (s : String) (cutset : String) : String :=
  String.mk (s.toList.dropWhile (fun c => cutset.toList.contains c))

/-! ## internal/public.go: the lookup worker -/

/-- Go `http.Request` as far as the code sets it. -/
structure Request where
  Method : String
  URL : String
  deriving DecidableEq, Repr

/-- Go `http.Response`: the status code, and the body given by what
`goquery.NewDocumentFromReader` makes of it (a document, or the error of reading it). -/
structure Response where
  StatusCode : Int
  Body : Except GoError Document

/-- Go interface `HTTPClient`. A client returns a response or an error, as the contract
of `http.Client.Do` says. -/
structure HTTPClient where
  Do : Request → Except GoError Response

/-- The function of `net/http` the worker calls, with the context as part of its
behaviour: `http.NewRequestWithContext(ctx, method, url, nil)`. -/
structure HTTPLib where
  NewRequestWithContext : String → String → Except GoError Request

/-- Go struct `Fetcher`. -/
structure Fetcher where
  client : HTTPClient

/-- Go interface `License` with its two implementations `license` and `errLicense`. -/
inductive License where
  | license (uri : String) (module : Module) (source content typ : String)
  | errLicense (uri : String) (module : Module) (err : GoError)
  deriving Repr

/-- Go method `URI()`. -/
def License.URI : License → String
  | .license uri _ _ _ _ => uri
  | .errLicense uri _ _ => uri

/-- Go method `Module()`. -/
def License.Module : License → Module
  | .license _ module _ _ _ => module
  | .errLicense _ module _ => module

/-- Go method `Source()`. -/
def License.Source : License → String
  | .license _ _ source _ _ => source
  | .errLicense _ _ _ => ""

/-- Go method `Content()`. -/
def License.Content : License → String
  | .license _ _ _ content _ => content
  | .errLicense _ _ _ => ""

/-- Go method `Type()`. -/
def License.Type : License → String
  | .license _ _ _ _ typ => typ
  | .errLicense _ _ _ => ""

/-- Go method `Err()`. -/
def License.Err : License → Option GoError
  | .license _ _ _ _ _ => none
  | .errLicense _ _ err => some err

/-- Go function `newLicense`. -/
def newLicense (module : Module) (source content typ uri : String) : License :=
  .license uri module source content typ

/-- Go function `newErrLicense`. -/
def newErrLicense (module : Module) (uri : String) (err : GoError) : License :=
  .errLicense uri module err

/-- Go constant `http.StatusOK`. -/
def StatusOK : Int := 200

/-- Go constant `http.MethodGet`. -/
def MethodGet : String := "GET"

/-- Go method `Fetcher.licensesURL`: the three writes to the string builder. -/
def licensesURL (module : Module) : String :=
  let b := ""
  let b := b ++ ("https://pkg.go.dev/" ++ module.Path)
  let b := if module.Version ≠ "" then b ++ ("@" ++ module.Version) else b
  let b := b ++ "?tab=licenses"
  b

/-- Go method `Fetcher.fetchLicense`. -/
def fetchLicense (h : HTTPLib) (f : Fetcher) (module : Module) : License :=
  let targetURL := licensesURL module
  let newErr := fun (err : GoError) => newErrLicense module targetURL err
  match h.NewRequestWithContext MethodGet targetURL with
  | .error err => newErr (Errorf "new http req " err "")
  | .ok req =>
    match f.client.Do req with
    | .error err => newErr (Errorf "do http req " err "")
    | .ok resp =>
      if resp.StatusCode ≠ StatusOK then
        newErr (Errorf "" ErrStatusNotOK (" " ++ fmtInt resp.StatusCode))
      else
        match resp.Body with
        | .error err => newErr (Errorf "new doc reader " err "")
        | .ok doc =>
          let typ := Text (doc.Find "#\\#lic-0")
          let source := TrimLeft (Text (doc.Find ".License-source")) "Source: "
          let content := Text (doc.Find ".License-contents")
          newLicense module source content typ targetURL

/-! ## internal/public.go: the dispatcher `Fetcher.FetchLicenses`

The goroutines of `FetchLicenses` as a transition system. Every statement that touches
shared state (a channel, the wait group, the limiter) is one step; the scheduler and the
environment choose the next action. -/

/-- Go constant `fetchLicensesChannelSize`. -/
def fetchLicensesChannelSize : Nat := 4

/-- Go constant `fetchLicensesPerSec`. -/
def fetchLicensesPerSec : Nat := 1

/-- Go constant `fetchLicensesConcurrency`. -/
def fetchLicensesConcurrency : Nat := 2

/-- Program counter of the dispatcher goroutine (the outer `go func`). -/
inductive DispatchPC where
  /-- At the head of `for _, module := range modules`, before `limiter.Wait(ctx)`. -/
  | loopHead
  /-- At `semaphoreC <- struct{}{}`. -/
  | semSend
  /-- At `waiter.Add(1)`. -/
  | waiterAdd
  /-- At `go func() { ... }()`. -/
  | spawn
  /-- In the deferred function, at `waiter.Wait()`. -/
  | waiterWait
  /-- In the deferred function, at `close(resultC)`. -/
  | closeC
  /-- The goroutine has returned. -/
  | exited
  deriving DecidableEq, Repr

/-- Program counter of a worker goroutine (the inner `go func`). -/
inductive WorkerPC where
  /-- Evaluating `f.fetchLicense(ctx, module)`. -/
  | fetch
  /-- At the send `resultC <- r` with the result `r` of the lookup. -/
  | send (r : License)
  /-- At `waiter.Done()`. -/
  | waiterDone
  /-- At `<-semaphoreC`. -/
  | semRecv
  /-- The goroutine has returned. -/
  | exited
  deriving Repr

/-- A worker goroutine: the captured variable `module` and the program counter. -/
structure Worker where
  module : Module
  pc : WorkerPC
  deriving Repr

/-- State of one call of `FetchLicenses` and of the consumer of the returned channel.
Elements of `resultC` are tagged with the index of the worker that sent them; `stopped`
is a history variable. -/
structure State where
  /-- Index of the current iteration of the dispatch loop. -/
  next : Nat
  /-- Program counter of the dispatcher. -/
  pc : DispatchPC
  /-- Number of elements in the buffer of `semaphoreC`. -/
  semaphoreC : Nat
  /-- Counter of the wait group `waiter`. -/
  waiter : Nat
  /-- The worker goroutines in the order they were launched. -/
  workers : List Worker
  /-- Buffer of `resultC`, oldest element first. -/
  resultC : List (Nat × License)
  /-- Whether `resultC` has been closed. -/
  closed : Bool
  /-- What the consumer has received from `resultC`, oldest element first. -/
  received : List (Nat × License)
  /-- Whether the consumer has seen the end of the channel. -/
  finished : Bool
  /-- Whether a goroutine has panicked (send on a closed channel, negative wait group
  counter). -/
  panicked : Bool
  /-- The loop index at which `limiter.Wait` returned an error, if it did. -/
  stopped : Option Nat
  deriving Repr

/-- An atomic action of the system. -/
inductive Action where
  /-- The call `limiter.Wait(ctx)` of the dispatcher returns: nil when `ok`, an error
  otherwise. -/
  | limiterWait (ok : Bool)
  /-- The dispatcher executes its current statement (other than `limiter.Wait`). -/
  | dispatch
  /-- The call `f.fetchLicense(ctx, module)` of worker `k` returns; `h` and `client` are
  the behaviour of `net/http` and of `f.client` during this call. -/
  | lookup (k : Nat) (h : HTTPLib) (client : HTTPClient)
  /-- The worker `k` executes its current statement (other than the lookup). -/
  | work (k : Nat)
  /-- The consumer receives from `resultC`. -/
  | receive

/-- State at the call of `FetchLicenses`: empty channels, the dispatcher at the loop head. -/
def State.init : State :=
  { next := 0, pc := .loopHead, semaphoreC := 0, waiter := 0, workers := [], resultC := [],
    closed := false, received := [], finished := false, panicked := false, stopped := none }

/-- One step of the dispatcher on a statement other than `limiter.Wait`; `none` when the
statement blocks. -/
def stepDispatch (modules : Modules) (s : State) : Option State :=
  match s.pc with
  | .loopHead =>
    if s.next < modules.length then none else some { s with pc := .waiterWait }
  | .semSend =>
    if s.semaphoreC < fetchLicensesConcurrency then
      some { s with semaphoreC := s.semaphoreC + 1, pc := .waiterAdd }
    else none
  | .waiterAdd => some { s with waiter := s.waiter + 1, pc := .spawn }
  | .spawn =>
    match modules[s.next]? with
    | some module =>
      some { s with workers := s.workers ++ [⟨module, .fetch⟩], next := s.next + 1,
                    pc := .loopHead }
    | none => none
  | .waiterWait => if s.waiter = 0 then some { s with pc := .closeC } else none
  | .closeC => some { s with closed := true, pc := .exited }
  | .exited => none

/-- One step of worker `k` on a statement other than the lookup; `none` when the
statement blocks or the worker does not exist. -/
def stepWork (s : State) (k : Nat) : Option State :=
  match s.workers[k]? with
  | some ⟨module, .send r⟩ =>
    if s.closed then some { s with panicked := true }
    else if s.resultC.length < fetchLicensesChannelSize then
      some { s with resultC := s.resultC ++ [(k, r)],
                    workers := s.workers.set k ⟨module, .waiterDone⟩ }
    else none
  | some ⟨module, .waiterDone⟩ =>
    if s.waiter = 0 then some { s with panicked := true }
    else some { s with waiter := s.waiter - 1, workers := s.workers.set k ⟨module, .semRecv⟩ }
  | some ⟨module, .semRecv⟩ =>
    if s.semaphoreC = 0 then none
    else some { s with semaphoreC := s.semaphoreC - 1,
                       workers := s.workers.set k ⟨module, .exited⟩ }
  | _ => none

/-- One step of the system; `none` when the action is not enabled. After a panic nothing
is enabled. -/
def step (modules : Modules) (s : State) (a : Action) : Option State :=
  if s.panicked then none
  else
    match a with
    | .limiterWait ok =>
      if s.pc = .loopHead ∧ s.next < modules.length then
        if ok then some { s with pc := .semSend }
        else some { s with pc := .waiterWait, stopped := some s.next }
      else none
    | .dispatch => stepDispatch modules s
    | .lookup k h client =>
      match s.workers[k]? with
      | some ⟨module, .fetch⟩ =>
        some { s with workers := s.workers.set k ⟨module, .send (fetchLicense h ⟨client⟩ module)⟩ }
      | _ => none
    | .work k => stepWork s k
    | .receive =>
      match s.resultC with
      | x :: rest => some { s with resultC := rest, received := s.received ++ [x] }
      | [] => if s.closed ∧ ¬ s.finished then some { s with finished := true } else none

/-- Runs a sequence of actions; `none` when one of them is not enabled. -/
def run (modules : Modules) : State → List Action → Option State
  | s, [] => some s
  | s, a :: rest =>
    match step modules s a with
    | some s2 => run modules s2 rest
    | none => none

/-- The states `FetchLicenses` can be in after some sequence of actions. -/
def Reachable (modules : Modules) (s : State) : Prop :=
  ∃ trace : List Action, run modules State.init trace = some s

/-- Indices of the workers whose result has been put on `resultC`, in the order of
emission: first what the consumer has received, then what is still buffered. -/
def State.emitted (s : State) : List (Nat × License) := s.received ++ s.resultC

/-- Whether a worker is past the concurrency gate and has not yet put its result on
`resultC`. -/
def Worker.inFlight (w : Worker) : Nat :=
  match w.pc with
  | .fetch => 1
  | .send _ => 1
  | _ => 0

/-- Number of lookups past the concurrency gate (the send on `semaphoreC`) whose result
is not yet on `resultC`: the lookup the dispatcher is about to launch, and the workers
before the end of their send. -/
def State.inFlight (s : State) : Nat :=
  (if s.pc = .waiterAdd ∨ s.pc = .spawn then 1 else 0) + (s.workers.map Worker.inFlight).sum

/-! ## Bookkeeping for the dispatcher proofs -/

/-- Slots of `semaphoreC` held on behalf of a worker: one until its receive from
`semaphoreC`. -/
def Worker.slots (w : Worker) : Nat :=
  match w.pc with
  | .exited => 0
  | _ => 1

/-- Units of the wait group held on behalf of a worker: one until its `waiter.Done()`. -/
def Worker.units (w : Worker) : Nat :=
  match w.pc with
  | .fetch => 1
  | .send _ => 1
  | .waiterDone => 1
  | _ => 0

/-- Whether the worker has completed its send on `resultC`. -/
def Worker.sent (w : Worker) : Bool :=
  match w.pc with
  | .fetch => false
  | .send _ => false
  | _ => true

/-- Number of steps left for a worker, the receive of its result by the consumer
included. -/
def Worker.rank (w : Worker) : Nat :=
  match w.pc with
  | .fetch => 5
  | .send _ => 4
  | .waiterDone => 2
  | .semRecv => 1
  | .exited => 0

/-- Slots of `semaphoreC` taken by the dispatcher for a worker it has not launched yet. -/
def DispatchPC.slots : DispatchPC → Nat
  | .waiterAdd => 1
  | .spawn => 1
  | _ => 0

/-- Units of the wait group added by the dispatcher for a worker it has not launched
yet. -/
def DispatchPC.units : DispatchPC → Nat
  | .spawn => 1
  | _ => 0

/-- Number of steps left for the dispatcher and the workers it has still to launch, when
`left` modules are left, the current one included. -/
def DispatchPC.rank (left : Nat) : DispatchPC → Nat
  | .loopHead => 9 * left + 3
  | .semSend => 9 * left + 2
  | .waiterAdd => 9 * left + 1
  | .spawn => 9 * left
  | .waiterWait => 2
  | .closeC => 1
  | .exited => 0

/-- An upper bound of the number of steps the system can still take. -/
def State.measure (modules : Modules) (s : State) : Nat :=
  (if s.finished then 0 else 1) + s.resultC.length + (s.workers.map Worker.rank).sum
    + s.pc.rank (modules.length - s.next)

/-- Whether the dispatcher has left the loop. -/
def DispatchPC.afterLoop : DispatchPC → Bool
  | .waiterWait => true
  | .closeC => true
  | .exited => true
  | _ => false

/-- Whether the dispatcher is inside an iteration of the loop, past `limiter.Wait`. -/
def DispatchPC.inIteration : DispatchPC → Bool
  | .semSend => true
  | .waiterAdd => true
  | .spawn => true
  | _ => false

/-- The invariant of the dispatcher. -/
structure Inv (modules : Modules) (s : State) : Prop where
  noPanic : s.panicked = false
  len : s.workers.length = s.next
  bound : s.next ≤ modules.length
  inLoop : s.pc.inIteration = true → s.next < modules.length
  captured : ∀ (k : Nat) (w : Worker), s.workers[k]? = some w → modules[k]? = some w.module
  sem : s.semaphoreC = s.pc.slots + (s.workers.map Worker.slots).sum
  semLe : s.semaphoreC ≤ fetchLicensesConcurrency
  wg : s.waiter = s.pc.units + (s.workers.map Worker.units).sum
  drained : s.pc = .closeC ∨ s.pc = .exited → s.waiter = 0
  closedIff : s.closed = true ↔ s.pc = .exited
  buf : s.resultC.length ≤ fetchLicensesChannelSize
  nodup : (s.emitted.map Prod.fst).Nodup
  mem : ∀ k : Nat, k ∈ s.emitted.map Prod.fst ↔
    ∃ w : Worker, s.workers[k]? = some w ∧ w.sent = true
  results : ∀ (k : Nat) (r : License), (k, r) ∈ s.emitted →
    ∃ (m : Module) (h : HTTPLib) (c : HTTPClient),
      modules[k]? = some m ∧ r = fetchLicense h ⟨c⟩ m
  sending : ∀ (k : Nat) (m : Module) (r : License), s.workers[k]? = some ⟨m, .send r⟩ →
    ∃ (h : HTTPLib) (c : HTTPClient), r = fetchLicense h ⟨c⟩ m
  fin : s.finished = true → s.closed = true ∧ s.resultC = []
  stop : ∀ i : Nat, s.stopped = some i → s.pc.afterLoop = true ∧ s.next = i ∧ i < modules.length
  full : s.stopped = none → s.pc.afterLoop = true → s.next = modules.length

/-! ## Pages described by their elements -/

mutual
/-- The node and all its descendants, in document order. -/
def Node.nodes : Node → List Node
  | .text d => [.text d]
  | .comment d => [.comment d]
  | .element d attr cs => .element d attr cs :: nodesOfList cs
/-- The nodes of a list of siblings with all their descendants, in document order. -/
def nodesOfList : List Node → List Node
  | [] => []
  | c :: cs => c.nodes ++ nodesOfList cs
end

/-- All nodes of a page, in document order. -/
def Document.nodes (doc : Document) : List Node := nodesOfList doc.children

/-- An element that has an `id` attribute with the value `v`. -/
def hasId (v : String) : Node → Bool
  | .element _ attr _ => attr.any (fun a => a.1 == "id" && a.2 == v)
  | _ => false

/-- An element that has a `class` attribute one of whose names, separated by white
space, is `c`. -/
def hasClass (c : String) : Node → Bool
  | .element _ attr _ =>
    attr.any (fun a => a.1 == "class" && decide (c.toList ∈ List.splitOnP isClassSep a.2.toList))
  | _ => false

/-! ## Sample inputs -/

/-- A module with a version. -/
def sampleModule : Module := ⟨"github.com/a/b", "v1.0.0", false, none⟩

/-- A library whose request construction always succeeds. -/
def sampleLib : HTTPLib := ⟨fun method url => .ok ⟨method, url⟩⟩

/-- A fetcher whose client answers every request with the given status and page. -/
def pageFetcher (code : Int) (doc : Document) : Fetcher :=
  ⟨⟨fun _ => .ok ⟨code, .ok doc⟩⟩⟩

/-- A license page: the type element carries the id attribute `idAttr`, the source
element the text `source`. -/
def licensePage (idAttr : String) (source : String) : Document :=
  ⟨[.element "html" [] [.element "body" [] [
    .element "div" [("id", idAttr)] [.text "MIT"],
    .element "p" [("class", "License-source")] [.text source],
    .element "pre" [("class", "License-contents")] [.text "MIT License text..."]]]]⟩

/-- A license page with two elements of class `License-contents`; the type is the text of
an element with the id attribute `lic-0` and of the element inside it with the id
attribute `#lic-0`. -/
def twoContentsPage : Document :=
  ⟨[.element "html" [] [.element "body" [] [
    .element "div" [("id", "lic-0")] [.element "span" [("id", "#lic-0")] [.text "MIT"]],
    .element "pre" [("class", "License-contents")] [.text "first"],
    .element "pre" [("class", "License-contents")] [.text "second"]]]]⟩

/-- A page without any of the elements the worker looks for. -/
def plainPage : Document :=
  ⟨[.element "html" [] [.element "body" [] [
    .element "h1" [("id", "title"), ("class", "big")] [.text "Not found"]]]]⟩

/-- A page whose only element with an id attribute has the id attribute `#lic-0`; it has
no element with the id attribute `lic-0` and no element with a class. -/
def hashIdPage : Document :=
  ⟨[.element "html" [] [.element "body" [] [
    .element "div" [("id", "#lic-0")] [.text "MIT"]]]]⟩

/-- Two sample modules. -/
def sampleModules : Modules := [sampleModule, ⟨"example.com/x", "", true, none⟩]

/-- Sample run: two modules, both lookups overlap; the second answers 404. -/
def sampleTrace : List Action :=
  [.limiterWait true, .dispatch, .dispatch, .dispatch,
   .limiterWait true, .dispatch, .dispatch, .dispatch,
   .dispatch,
   .lookup 1 sampleLib (pageFetcher 404 plainPage).client, .work 1, .work 1, .work 1,
   .lookup 0 sampleLib (pageFetcher 200 (licensePage "#lic-0" "Source: LICENSE")).client,
   .work 0, .receive, .work 0, .work 0, .dispatch, .dispatch, .receive, .receive]

/-- The state at the end of `sampleTrace`. -/
def sampleFinal : State :=
  { next := 2, pc := .exited, semaphoreC := 0, waiter := 0,
    workers := [⟨sampleModule, .exited⟩, ⟨⟨"example.com/x", "", true, none⟩, .exited⟩],
    resultC := [], closed := true,
    received :=
      [(1, fetchLicense sampleLib (pageFetcher 404 plainPage) ⟨"example.com/x", "", true, none⟩),
       (0, fetchLicense sampleLib (pageFetcher 200 (licensePage "#lic-0" "Source: LICENSE"))
            sampleModule)],
    finished := true, panicked := false, stopped := none }

/-- The state after the first nine actions of `sampleTrace`: two workers are running
their lookups. -/
def sampleMid : State :=
  { next := 2, pc := .waiterWait, semaphoreC := 2, waiter := 2,
    workers := [⟨sampleModule, .fetch⟩, ⟨⟨"example.com/x", "", true, none⟩, .fetch⟩],
    resultC := [], closed := false, received := [], finished := false, panicked := false,
    stopped := none }

/-- Sample run in which `limiter.Wait` fails when the loop reaches the second module. -/
def stoppedTrace : List Action :=
  [.limiterWait true, .dispatch, .dispatch, .dispatch, .limiterWait false,
   .lookup 0 sampleLib (pageFetcher 200 plainPage).client, .work 0, .work 0, .work 0,
   .dispatch, .dispatch, .receive, .receive]

/-- The state at the end of `stoppedTrace`. -/
def stoppedFinal : State :=
  { next := 1, pc := .exited, semaphoreC := 0, waiter := 0,
    workers := [⟨sampleModule, .exited⟩], resultC := [], closed := true,
    received := [(0, fetchLicense sampleLib (pageFetcher 200 plainPage) sampleModule)],
    finished := true, panicked := false, stopped := some 1 }

/-- Sample run in which `limiter.Wait` fails before the first module. -/
def cancelledTrace : List Action :=
  [.limiterWait false, .dispatch, .dispatch, .receive]

/-- The state at the end of `cancelledTrace`. -/
def cancelledFinal : State :=
  { next := 0, pc := .exited, semaphoreC := 0, waiter := 0, workers := [], resultC := [],
    closed := true, received := [], finished := true, panicked := false, stopped := some 0 }

/-! ## Lemmas on filters, selectors and pages -/

theorem Filter_eq_filter (ms : Modules) (p : Module → Bool) :
    Modules.Filter ms p = List.filter p ms := by
  unfold Modules.Filter
  suffices h : ∀ (acc : List Module),
      List.foldl (fun r module => if p module then r ++ [module] else r) acc ms
        = acc ++ List.filter p ms by
    simpa using h []
  induction ms with
  | nil => intro acc; simp
  | cons m ms ih =>
    intro acc
    by_cases hp : p m = true
    · simp [List.foldl_cons, ih, List.filter_cons, hp]
    · simp [List.foldl_cons, ih, List.filter_cons, hp]

theorem matchIncludeLoop_eq (val : List Char) (hval : val ≠ []) (l cur : List Char) :
    matchIncludeLoop val cur l = decide (val ∈ List.splitOnP.go isClassSep l cur) := by
  induction l generalizing cur with
  | nil =>
    rw [Bool.eq_iff_iff]
    cases cur with
    | nil => simp [matchIncludeLoop, List.splitOnP.go, hval]
    | cons c cs =>
      simp only [matchIncludeLoop, List.splitOnP.go]
      simp
      exact eq_comm
  | cons c rest ih =>
    by_cases hc : isClassSep c = true
    · rw [Bool.eq_iff_iff]
      simp only [matchIncludeLoop, List.splitOnP.go, hc, ih]
      simp
      constructor
      · rintro (h | h)
        · exact Or.inl h.symm
        · exact Or.inr h
      · rintro (h | h)
        · exact Or.inl h.symm
        · exact Or.inr h
    · simp only [matchIncludeLoop, List.splitOnP.go, hc, ih]
      simp

mutual
theorem matchAll_eq_filter (sel : Selector) :
    ∀ n : Node, matchAll sel n = List.filter sel.Match n.nodes
  | .text d => by simp [matchAll, Node.nodes, List.filter_cons]
  | .comment d => by simp [matchAll, Node.nodes, List.filter_cons]
  | .element d attr cs => by
    rw [matchAll, Node.nodes, List.filter_cons, matchAllList_eq_filter sel cs]
    split <;> simp
theorem matchAllList_eq_filter (sel : Selector) :
    ∀ l : List Node, matchAllList sel l = List.filter sel.Match (nodesOfList l)
  | [] => by simp [matchAllList, nodesOfList]
  | c :: cs => by
    rw [matchAllList, nodesOfList, List.filter_append, matchAll_eq_filter sel c,
      matchAllList_eq_filter sel cs]
end

theorem Match_id (v : String) (n : Node) : (Selector.id v).Match n = hasId v n := by
  cases n <;> simp [Selector.Match, matchAttribute, hasId]

theorem Match_cls (c : String) (hc : c.toList ≠ []) (n : Node) :
    (Selector.cls c).Match n = hasClass c n := by
  have hc2 : c.data ≠ [] := hc
  cases n <;> simp [Selector.Match, matchAttribute, hasClass, matchInclude,
    matchIncludeLoop_eq _ hc2, List.splitOnP]

theorem Find_type (doc : Document) :
    doc.Find "#\\#lic-0" = List.filter (hasId "#lic-0") doc.nodes := by
  have hc : compile "#\\#lic-0" = some (.id "#lic-0") := by decide
  have hm : (Selector.id "#lic-0").Match = hasId "#lic-0" := funext (Match_id _)
  simp only [Document.Find, hc, matchAllList_eq_filter, Document.nodes, hm]

theorem Find_source (doc : Document) :
    doc.Find ".License-source" = List.filter (hasClass "License-source") doc.nodes := by
  have hc : compile ".License-source" = some (.cls "License-source") := by decide
  have hm : (Selector.cls "License-source").Match = hasClass "License-source" :=
    funext (Match_cls _ (by decide))
  simp only [Document.Find, hc, matchAllList_eq_filter, Document.nodes, hm]

theorem Find_contents (doc : Document) :
    doc.Find ".License-contents" = List.filter (hasClass "License-contents") doc.nodes := by
  have hc : compile ".License-contents" = some (.cls "License-contents") := by decide
  have hm : (Selector.cls "License-contents").Match = hasClass "License-contents" :=
    funext (Match_cls _ (by decide))
  simp only [Document.Find, hc, matchAllList_eq_filter, Document.nodes, hm]

theorem Text_nil : Text [] = "" := rfl

theorem Text_single (e : Node) : Text [e] = getNodeText e := by
  simp [Text]

/-! ## Lemmas on the worker list -/

theorem sum_map_set (f : Worker → Nat) (l : List Worker) (k : Nat) (w w2 : Worker)
    (h : l[k]? = some w) :
    ((l.set k w2).map f).sum + f w = (l.map f).sum + f w2 := by
  induction l generalizing k with
  | nil => simp at h
  | cons x xs ih =>
    cases k with
    | zero =>
      simp at h
      subst h
      simp only [List.set, List.map_cons, List.sum_cons]
      omega
    | succ k =>
      simp at h
      have := ih k h
      simp only [List.set, List.map_cons, List.sum_cons]
      omega

theorem sum_map_eq_zero (f : Worker → Nat) (l : List Worker)
    (h : (l.map f).sum = 0) : ∀ w ∈ l, f w = 0 := by
  induction l with
  | nil => simp
  | cons x xs ih =>
    simp at h
    intro w hw
    simp at hw
    rcases hw with rfl | hw
    · exact h.1
    · exact ih (by simpa using h.2) w hw

theorem le_sum_map (f : Worker → Nat) (l : List Worker) (k : Nat) (w : Worker)
    (h : l[k]? = some w) : f w ≤ (l.map f).sum := by
  induction l generalizing k with
  | nil => simp at h
  | cons x xs ih =>
    cases k with
    | zero =>
      simp at h
      subst h
      simp
    | succ k =>
      simp at h
      have := ih k h
      simp only [List.map_cons, List.sum_cons]
      omega

theorem getElem?_set_cases (l : List Worker) (k j : Nat) (w2 w : Worker)
    (h : (l.set k w2)[j]? = some w) :
    (j = k ∧ w = w2) ∨ (j ≠ k ∧ l[j]? = some w) := by
  rw [List.getElem?_set] at h
  by_cases hkj : k = j
  · subst hkj
    left
    simp only [if_true] at h
    split at h
    · exact ⟨rfl, (Option.some.inj h).symm⟩
    · cases h
  · right
    rw [if_neg hkj] at h
    exact ⟨fun e => hkj e.symm, h⟩

theorem getElem?_set_same (l : List Worker) (k : Nat) (w w2 : Worker)
    (h : l[k]? = some w) : (l.set k w2)[k]? = some w2 := by
  have hk : k < l.length := (List.getElem?_eq_some_iff.mp h).1
  exact List.getElem?_set_self hk

theorem captured_set (modules : Modules) (l : List Worker) (k : Nat) (m : Module)
    (pc pc2 : WorkerPC)
    (hcap : ∀ (j : Nat) (w : Worker), l[j]? = some w → modules[j]? = some w.module)
    (hk : l[k]? = some ⟨m, pc⟩) :
    ∀ (j : Nat) (w : Worker), (l.set k ⟨m, pc2⟩)[j]? = some w →
      modules[j]? = some w.module := by
  intro j w hj
  rcases getElem?_set_cases l k j _ w hj with ⟨h1, h2⟩ | ⟨_, h2⟩
  · subst h1 h2
    exact hcap j ⟨m, pc⟩ hk
  · exact hcap j w h2

theorem sent_set_same (l : List Worker) (k : Nat) (w w2 : Worker)
    (hk : l[k]? = some w) (hsame : w2.sent = w.sent) (j : Nat) :
    (∃ x : Worker, (l.set k w2)[j]? = some x ∧ x.sent = true)
      ↔ (∃ x : Worker, l[j]? = some x ∧ x.sent = true) := by
  constructor
  · rintro ⟨x, hx, hs⟩
    rcases getElem?_set_cases l k j _ x hx with ⟨h1, h2⟩ | ⟨_, h2⟩
    · subst h1 h2
      exact ⟨w, hk, by rw [← hsame]; exact hs⟩
    · exact ⟨x, h2, hs⟩
  · rintro ⟨x, hx, hs⟩
    by_cases hjk : j = k
    · subst hjk
      rw [hk] at hx
      cases hx
      exact ⟨w2, getElem?_set_same l j _ _ hk, by rw [hsame]; exact hs⟩
    · refine ⟨x, ?_, hs⟩
      rw [List.getElem?_set_ne (fun e => hjk e.symm)]
      exact hx

theorem sending_set (l : List Worker) (k : Nat) (w2 : Worker)
    (hsnd : ∀ (j : Nat) (m : Module) (r : License), l[j]? = some ⟨m, .send r⟩ →
      ∃ (h : HTTPLib) (c : HTTPClient), r = fetchLicense h ⟨c⟩ m)
    (hnew : ∀ (m : Module) (r : License), w2 = ⟨m, .send r⟩ →
      ∃ (h : HTTPLib) (c : HTTPClient), r = fetchLicense h ⟨c⟩ m) :
    ∀ (j : Nat) (m : Module) (r : License), (l.set k w2)[j]? = some ⟨m, .send r⟩ →
      ∃ (h : HTTPLib) (c : HTTPClient), r = fetchLicense h ⟨c⟩ m := by
  intro j m r hj
  rcases getElem?_set_cases l k j _ _ hj with ⟨_, h2⟩ | ⟨_, h2⟩
  · exact hnew m r h2.symm
  · exact hsnd j m r h2

/-! ## The invariant is preserved by every step -/

theorem inv_spawn (modules : Modules) (s s2 : State)
    (hi : Inv modules s) (hpc : s.pc = .spawn) (hs : stepDispatch modules s = some s2) :
    Inv modules s2 := by
  rcases s with ⟨next, pc, sem, wtr, workers, resultC, closed, received, finished, panicked,
    stopped⟩
  obtain ⟨hnp, hlen, hbound, hinl, hcap, hsem, hsemle, hwg, hdr, hcl, hbuf, hnd, hmem, hres,
    hsnd, hfin, hstop, hfull⟩ := hi
  simp only [State.emitted] at hnp hlen hbound hinl hcap hsem hsemle hwg hdr hcl hbuf hnd hmem hres hsnd hfin hstop hfull hpc
  subst hnp hpc
  simp only [stepDispatch] at hs
  cases hm : modules[next]? with
  | none => simp [hm] at hs
  | some module =>
    simp [hm] at hs
    subst hs
    have hlt : next < modules.length := by
      rcases List.getElem?_eq_some_iff.mp hm with ⟨h1, _⟩
      exact h1
    have hget : ∀ (k : Nat) (w : Worker), (workers ++ [⟨module, .fetch⟩])[k]? = some w →
        (workers[k]? = some w) ∨ (k = next ∧ w = ⟨module, .fetch⟩) := by
      intro k w hk
      by_cases hkl : k < workers.length
      · left
        rwa [List.getElem?_append_left hkl] at hk
      · right
        have hge : workers.length ≤ k := Nat.le_of_not_lt hkl
        rw [List.getElem?_append_right hge] at hk
        have : k - workers.length = 0 := by
          by_contra hne
          have : ([⟨module, .fetch⟩] : List Worker)[k - workers.length]? = none := by
            apply List.getElem?_eq_none
            simp
            omega
          rw [this] at hk
          cases hk
        rw [this] at hk
        simp at hk
        exact ⟨by omega, hk.symm⟩
    constructor
    case noPanic => rfl
    case len => simp [hlen]
    case bound => exact hlt
    case inLoop => simp [DispatchPC.inIteration]
    case captured =>
      intro k w hk
      rcases hget k w hk with h | ⟨h1, h2⟩
      · exact hcap k w h
      · subst h1 h2
        exact hm
    case sem =>
      simp [DispatchPC.slots, Worker.slots] at hsem ⊢
      omega
    case semLe => exact hsemle
    case wg =>
      simp [DispatchPC.units, Worker.units] at hwg ⊢
      omega
    case drained => simp
    case closedIff => simpa using hcl
    case buf => exact hbuf
    case nodup => exact hnd
    case mem =>
      intro k
      simp only [State.emitted]
      rw [hmem k]
      constructor
      · rintro ⟨w, hw, hsent⟩
        refine ⟨w, ?_, hsent⟩
        have hkl : k < workers.length := (List.getElem?_eq_some_iff.mp hw).1
        rw [List.getElem?_append_left hkl]
        exact hw
      · rintro ⟨w, hw, hsent⟩
        rcases hget k w hw with h | ⟨_, h2⟩
        · exact ⟨w, h, hsent⟩
        · subst h2
          simp [Worker.sent] at hsent
    case results => exact hres
    case sending =>
      intro k m r hk
      rcases hget k _ hk with h | ⟨_, h2⟩
      · exact hsnd k m r h
      · simp at h2
    case fin => exact hfin
    case stop =>
      intro i hi
      have := hstop i hi
      simp [DispatchPC.afterLoop] at this
    case full => simp [DispatchPC.afterLoop]

theorem inv_init (modules : Modules) : Inv modules State.init := by
  constructor <;> simp [State.init, State.emitted, DispatchPC.slots, DispatchPC.units,
    DispatchPC.inIteration, DispatchPC.afterLoop, fetchLicensesConcurrency,
    fetchLicensesChannelSize]

theorem inv_limiterWait (modules : Modules) (s s2 : State) (ok : Bool)
    (hi : Inv modules s) (hs : step modules s (.limiterWait ok) = some s2) :
    Inv modules s2 := by
  rcases s with ⟨next, pc, sem, wtr, workers, resultC, closed, received, finished, panicked,
    stopped⟩
  obtain ⟨hnp, hlen, hbound, hinl, hcap, hsem, hsemle, hwg, hdr, hcl, hbuf, hnd, hmem, hres,
    hsnd, hfin, hstop, hfull⟩ := hi
  simp only [State.emitted] at hnp hlen hbound hinl hcap hsem hsemle hwg hdr hcl hbuf hnd hmem hres hsnd hfin hstop hfull
  subst hnp
  simp only [step, Bool.false_eq_true, if_false] at hs
  have hg : pc = .loopHead ∧ next < modules.length := by
    by_contra hg
    simp only [hg, if_false] at hs
    cases hs
  simp only [hg, and_self, if_true] at hs
  obtain ⟨hpc, hlt⟩ := hg
  subst hpc
  have hclosed : closed = false := by
    cases closed with
    | true => have := hcl.mp rfl; cases this
    | false => rfl
  subst hclosed
  cases ok with
  | true =>
    simp only [if_true] at hs
    cases hs
    constructor
    case inLoop => intro _; exact hlt
    case drained => intro h; rcases h with h | h <;> cases h
    case closedIff => simp
    case stop =>
      intro i h
      have := (hstop i h).1
      simp [DispatchPC.afterLoop] at this
    case full => intro _ h; simp [DispatchPC.afterLoop] at h
    all_goals first | assumption | rfl
  | false =>
    simp only [Bool.false_eq_true, if_false] at hs
    cases hs
    constructor
    case inLoop => intro h; simp [DispatchPC.inIteration] at h
    case drained => intro h; rcases h with h | h <;> cases h
    case closedIff => simp
    case stop =>
      intro i h
      simp only [Option.some.injEq] at h
      subst h
      exact ⟨rfl, rfl, hlt⟩
    case full => intro h; simp at h
    all_goals first | assumption | rfl

theorem inv_loopExit (modules : Modules) (s s2 : State)
    (hi : Inv modules s) (hpc : s.pc = .loopHead) (hs : stepDispatch modules s = some s2) :
    Inv modules s2 := by
  rcases s with ⟨next, pc, sem, wtr, workers, resultC, closed, received, finished, panicked,
    stopped⟩
  obtain ⟨hnp, hlen, hbound, hinl, hcap, hsem, hsemle, hwg, hdr, hcl, hbuf, hnd, hmem, hres,
    hsnd, hfin, hstop, hfull⟩ := hi
  simp only [State.emitted] at hnp hlen hbound hinl hcap hsem hsemle hwg hdr hcl hbuf hnd hmem hres hsnd hfin hstop hfull hpc
  subst hnp hpc
  simp only [stepDispatch] at hs
  have hge : ¬ next < modules.length := by
    intro hlt
    simp only [hlt, if_true] at hs
    cases hs
  simp only [hge, if_false] at hs
  cases hs
  have hclosed : closed = false := by
    cases closed with
    | true => have := hcl.mp rfl; cases this
    | false => rfl
  subst hclosed
  constructor
  case inLoop => intro h; simp [DispatchPC.inIteration] at h
  case drained => intro h; rcases h with h | h <;> cases h
  case closedIff => simp
  case stop =>
    intro i h
    have := (hstop i h).1
    simp [DispatchPC.afterLoop] at this
  case full => intro _ _; simp only; omega
  all_goals first | assumption | rfl

theorem inv_semSend (modules : Modules) (s s2 : State)
    (hi : Inv modules s) (hpc : s.pc = .semSend) (hs : stepDispatch modules s = some s2) :
    Inv modules s2 := by
  rcases s with ⟨next, pc, sem, wtr, workers, resultC, closed, received, finished, panicked,
    stopped⟩
  obtain ⟨hnp, hlen, hbound, hinl, hcap, hsem, hsemle, hwg, hdr, hcl, hbuf, hnd, hmem, hres,
    hsnd, hfin, hstop, hfull⟩ := hi
  simp only [State.emitted] at hnp hlen hbound hinl hcap hsem hsemle hwg hdr hcl hbuf hnd hmem hres hsnd hfin hstop hfull hpc
  subst hnp hpc
  simp only [stepDispatch] at hs
  have hlt : sem < fetchLicensesConcurrency := by
    by_contra hlt
    simp only [hlt, if_false] at hs
    cases hs
  simp only [hlt, if_true] at hs
  cases hs
  have hclosed : closed = false := by
    cases closed with
    | true => have := hcl.mp rfl; cases this
    | false => rfl
  subst hclosed
  constructor
  case inLoop => intro _; exact hinl rfl
  case sem =>
    simp only [DispatchPC.slots] at hsem ⊢
    omega
  case semLe => simp only; omega
  case drained => intro h; rcases h with h | h <;> cases h
  case closedIff => simp
  case stop =>
    intro i h
    have := (hstop i h).1
    simp [DispatchPC.afterLoop] at this
  case full => intro _ h; simp [DispatchPC.afterLoop] at h
  all_goals first | assumption | rfl

theorem inv_waiterAdd (modules : Modules) (s s2 : State)
    (hi : Inv modules s) (hpc : s.pc = .waiterAdd) (hs : stepDispatch modules s = some s2) :
    Inv modules s2 := by
  rcases s with ⟨next, pc, sem, wtr, workers, resultC, closed, received, finished, panicked,
    stopped⟩
  obtain ⟨hnp, hlen, hbound, hinl, hcap, hsem, hsemle, hwg, hdr, hcl, hbuf, hnd, hmem, hres,
    hsnd, hfin, hstop, hfull⟩ := hi
  simp only [State.emitted] at hnp hlen hbound hinl hcap hsem hsemle hwg hdr hcl hbuf hnd hmem hres hsnd hfin hstop hfull hpc
  subst hnp hpc
  simp only [stepDispatch] at hs
  cases hs
  have hclosed : closed = false := by
    cases closed with
    | true => have := hcl.mp rfl; cases this
    | false => rfl
  subst hclosed
  constructor
  case inLoop => intro _; exact hinl rfl
  case wg =>
    simp only [DispatchPC.units] at hwg ⊢
    omega
  case drained => intro h; rcases h with h | h <;> cases h
  case closedIff => simp
  case stop =>
    intro i h
    have := (hstop i h).1
    simp [DispatchPC.afterLoop] at this
  case full => intro _ h; simp [DispatchPC.afterLoop] at h
  all_goals first | assumption | rfl

theorem inv_waiterWait (modules : Modules) (s s2 : State)
    (hi : Inv modules s) (hpc : s.pc = .waiterWait) (hs : stepDispatch modules s = some s2) :
    Inv modules s2 := by
  rcases s with ⟨next, pc, sem, wtr, workers, resultC, closed, received, finished, panicked,
    stopped⟩
  obtain ⟨hnp, hlen, hbound, hinl, hcap, hsem, hsemle, hwg, hdr, hcl, hbuf, hnd, hmem, hres,
    hsnd, hfin, hstop, hfull⟩ := hi
  simp only [State.emitted] at hnp hlen hbound hinl hcap hsem hsemle hwg hdr hcl hbuf hnd hmem hres hsnd hfin hstop hfull hpc
  subst hnp hpc
  simp only [stepDispatch] at hs
  have hz : wtr = 0 := by
    by_contra hz
    simp only [hz, if_false] at hs
    cases hs
  subst hz
  simp only [if_true] at hs
  cases hs
  have hclosed : closed = false := by
    cases closed with
    | true => have := hcl.mp rfl; cases this
    | false => rfl
  subst hclosed
  constructor
  case inLoop => intro h; simp [DispatchPC.inIteration] at h
  case drained => intro _; rfl
  case closedIff => simp
  case stop => intro i h; exact ⟨rfl, (hstop i h).2⟩
  case full => intro h _; exact hfull h rfl
  all_goals first | assumption | rfl

theorem inv_closeC (modules : Modules) (s s2 : State)
    (hi : Inv modules s) (hpc : s.pc = .closeC) (hs : stepDispatch modules s = some s2) :
    Inv modules s2 := by
  rcases s with ⟨next, pc, sem, wtr, workers, resultC, closed, received, finished, panicked,
    stopped⟩
  obtain ⟨hnp, hlen, hbound, hinl, hcap, hsem, hsemle, hwg, hdr, hcl, hbuf, hnd, hmem, hres,
    hsnd, hfin, hstop, hfull⟩ := hi
  simp only [State.emitted] at hnp hlen hbound hinl hcap hsem hsemle hwg hdr hcl hbuf hnd hmem hres hsnd hfin hstop hfull hpc
  subst hnp hpc
  simp only [stepDispatch] at hs
  cases hs
  have hclosed : closed = false := by
    cases closed with
    | true => have := hcl.mp rfl; cases this
    | false => rfl
  subst hclosed
  constructor
  case inLoop => intro h; simp [DispatchPC.inIteration] at h
  case drained => intro _; exact hdr (Or.inl rfl)
  case closedIff => simp
  case fin =>
    intro hf
    have := (hfin hf).1
    cases this
  case stop => intro i h; exact ⟨rfl, (hstop i h).2⟩
  case full => intro h _; exact hfull h rfl
  all_goals first | assumption | rfl

theorem inv_dispatch (modules : Modules) (s s2 : State)
    (hi : Inv modules s) (hs : step modules s .dispatch = some s2) :
    Inv modules s2 := by
  have hnp := hi.noPanic
  simp only [step, hnp, Bool.false_eq_true, if_false] at hs
  cases hpc : s.pc with
  | loopHead => exact inv_loopExit modules s s2 hi hpc hs
  | semSend => exact inv_semSend modules s s2 hi hpc hs
  | waiterAdd => exact inv_waiterAdd modules s s2 hi hpc hs
  | spawn => exact inv_spawn modules s s2 hi hpc hs
  | waiterWait => exact inv_waiterWait modules s s2 hi hpc hs
  | closeC => exact inv_closeC modules s s2 hi hpc hs
  | exited => simp [stepDispatch, hpc] at hs

theorem inv_lookup (modules : Modules) (s s2 : State) (k : Nat) (h : HTTPLib)
    (client : HTTPClient)
    (hi : Inv modules s) (hs : step modules s (.lookup k h client) = some s2) :
    Inv modules s2 := by
  rcases s with ⟨next, pc, sem, wtr, workers, resultC, closed, received, finished, panicked,
    stopped⟩
  obtain ⟨hnp, hlen, hbound, hinl, hcap, hsem, hsemle, hwg, hdr, hcl, hbuf, hnd, hmem, hres,
    hsnd, hfin, hstop, hfull⟩ := hi
  simp only [State.emitted] at hnp hlen hbound hinl hcap hsem hsemle hwg hdr hcl hbuf hnd hmem hres hsnd hfin hstop hfull
  subst hnp
  simp only [step, Bool.false_eq_true, if_false] at hs
  cases hk : workers[k]? with
  | none => simp [hk] at hs
  | some w =>
    obtain ⟨m, wpc⟩ := w
    cases wpc with
    | fetch =>
      simp only [hk] at hs
      cases hs
      have hslots := sum_map_set Worker.slots workers k _
        ⟨m, .send (fetchLicense h ⟨client⟩ m)⟩ hk
      have hunits := sum_map_set Worker.units workers k _
        ⟨m, .send (fetchLicense h ⟨client⟩ m)⟩ hk
      simp only [Worker.slots, Worker.units] at hslots hunits
      constructor
      case noPanic => rfl
      case len => simpa using hlen
      case bound => exact hbound
      case inLoop => exact hinl
      case captured => exact captured_set modules workers k m _ _ hcap hk
      case sem => simp only; omega
      case semLe => exact hsemle
      case wg => simp only; omega
      case drained => exact hdr
      case closedIff => exact hcl
      case buf => exact hbuf
      case nodup => exact hnd
      case mem =>
        intro j
        simp only [State.emitted]
        rw [hmem j]
        exact (sent_set_same workers k ⟨m, .fetch⟩
          ⟨m, .send (fetchLicense h ⟨client⟩ m)⟩ hk rfl j).symm
      case results => exact hres
      case sending =>
        apply sending_set workers k _ hsnd
        intro m2 r2 he
        cases he
        exact ⟨h, client, rfl⟩
      case fin => exact hfin
      case stop => exact hstop
      case full => exact hfull
    | send r => simp [hk] at hs
    | waiterDone => simp [hk] at hs
    | semRecv => simp [hk] at hs
    | exited => simp [hk] at hs

theorem inv_work_send (modules : Modules) (s s2 : State) (k : Nat) (m : Module) (r : License)
    (hi : Inv modules s) (hk : s.workers[k]? = some ⟨m, .send r⟩)
    (hs : stepWork s k = some s2) : Inv modules s2 := by
  rcases s with ⟨next, pc, sem, wtr, workers, resultC, closed, received, finished, panicked,
    stopped⟩
  obtain ⟨hnp, hlen, hbound, hinl, hcap, hsem, hsemle, hwg, hdr, hcl, hbuf, hnd, hmem, hres,
    hsnd, hfin, hstop, hfull⟩ := hi
  simp only [State.emitted] at hnp hlen hbound hinl hcap hsem hsemle hwg hdr hcl hbuf hnd hmem hres hsnd hfin hstop hfull hk
  subst hnp
  simp only [stepWork, hk] at hs
  have hunit := le_sum_map Worker.units workers k _ hk
  simp only [Worker.units] at hunit
  have hcf : closed = false := by
    cases closed with
    | true =>
      have hpc : pc = .exited := hcl.mp rfl
      have hz := hdr (Or.inr hpc)
      omega
    | false => rfl
  subst hcf
  simp only [Bool.false_eq_true, if_false] at hs
  have hroom : resultC.length < fetchLicensesChannelSize := by
    by_contra hroom
    simp only [hroom, if_false] at hs
    cases hs
  simp only [hroom, if_true] at hs
  cases hs
  have hslots := sum_map_set Worker.slots workers k _ ⟨m, .waiterDone⟩ hk
  have hunits := sum_map_set Worker.units workers k _ ⟨m, .waiterDone⟩ hk
  simp only [Worker.slots, Worker.units] at hslots hunits
  have hnotin : k ∉ List.map Prod.fst (received ++ resultC) := by
    intro hin
    obtain ⟨w, hw, hsent⟩ := (hmem k).mp hin
    rw [hk] at hw
    cases hw
    simp [Worker.sent] at hsent
  constructor
  case noPanic => rfl
  case len => simpa using hlen
  case bound => exact hbound
  case inLoop => exact hinl
  case captured => exact captured_set modules workers k m _ _ hcap hk
  case sem => simp only; omega
  case semLe => exact hsemle
  case wg => simp only; omega
  case drained => exact hdr
  case closedIff => exact hcl
  case buf =>
    simp only [List.length_append, List.length_singleton]
    simp only [fetchLicensesChannelSize] at hroom ⊢
    omega
  case nodup =>
    simp only [State.emitted]
    rw [← List.append_assoc, List.map_append, List.nodup_append]
    refine ⟨hnd, by simp, ?_⟩
    intro a ha hb
    simp at hb
    subst hb
    exact hnotin ha
  case mem =>
    intro j
    simp only [State.emitted]
    rw [← List.append_assoc, List.map_append, List.mem_append, hmem j]
    constructor
    · rintro (⟨w, hw, hsent⟩ | hj)
      · have hjk : j ≠ k := by
          intro e
          subst e
          rw [hk] at hw
          cases hw
          simp [Worker.sent] at hsent
        refine ⟨w, ?_, hsent⟩
        rw [List.getElem?_set_ne (fun e => hjk e.symm)]
        exact hw
      · simp at hj
        subst hj
        exact ⟨_, getElem?_set_same workers j _ _ hk, rfl⟩
    · rintro ⟨w, hw, hsent⟩
      rcases getElem?_set_cases workers k j _ w hw with ⟨h1, _⟩ | ⟨_, h2⟩
      · right
        simp [h1]
      · left
        exact ⟨w, h2, hsent⟩
  case results =>
    intro j r2 hj
    simp only [State.emitted] at hj
    rw [← List.append_assoc, List.mem_append] at hj
    rcases hj with hj | hj
    · exact hres j r2 hj
    · simp at hj
      obtain ⟨h1, h2⟩ := hj
      subst h1 h2
      obtain ⟨h, c, hr⟩ := hsnd j m r2 hk
      exact ⟨m, h, c, hcap j _ hk, hr⟩
  case sending =>
    apply sending_set workers k _ hsnd
    intro m2 r2 he
    cases he
  case fin =>
    intro hf
    have := (hfin hf).1
    cases this
  case stop => exact hstop
  case full => exact hfull

theorem inv_work_done (modules : Modules) (s s2 : State) (k : Nat) (m : Module)
    (hi : Inv modules s) (hk : s.workers[k]? = some ⟨m, .waiterDone⟩)
    (hs : stepWork s k = some s2) : Inv modules s2 := by
  rcases s with ⟨next, pc, sem, wtr, workers, resultC, closed, received, finished, panicked,
    stopped⟩
  obtain ⟨hnp, hlen, hbound, hinl, hcap, hsem, hsemle, hwg, hdr, hcl, hbuf, hnd, hmem, hres,
    hsnd, hfin, hstop, hfull⟩ := hi
  simp only [State.emitted] at hnp hlen hbound hinl hcap hsem hsemle hwg hdr hcl hbuf hnd hmem hres hsnd hfin hstop hfull hk
  subst hnp
  simp only [stepWork, hk] at hs
  have hunit := le_sum_map Worker.units workers k _ hk
  simp only [Worker.units] at hunit
  have hwz : wtr ≠ 0 := by omega
  simp only [hwz, if_false] at hs
  cases hs
  have hslots := sum_map_set Worker.slots workers k _ ⟨m, .semRecv⟩ hk
  have hunits := sum_map_set Worker.units workers k _ ⟨m, .semRecv⟩ hk
  simp only [Worker.slots, Worker.units] at hslots hunits
  constructor
  case noPanic => rfl
  case len => simpa using hlen
  case bound => exact hbound
  case inLoop => exact hinl
  case captured => exact captured_set modules workers k m _ _ hcap hk
  case sem => simp only; omega
  case semLe => exact hsemle
  case wg => simp only; omega
  case drained =>
    intro hpc
    have := hdr hpc
    simp only
    omega
  case closedIff => exact hcl
  case buf => exact hbuf
  case nodup => exact hnd
  case mem =>
    intro j
    simp only [State.emitted]
    rw [hmem j]
    exact (sent_set_same workers k ⟨m, .waiterDone⟩ ⟨m, .semRecv⟩ hk rfl j).symm
  case results => exact hres
  case sending =>
    apply sending_set workers k _ hsnd
    intro m2 r2 he
    cases he
  case fin => exact hfin
  case stop => exact hstop
  case full => exact hfull

theorem inv_work_recv (modules : Modules) (s s2 : State) (k : Nat) (m : Module)
    (hi : Inv modules s) (hk : s.workers[k]? = some ⟨m, .semRecv⟩)
    (hs : stepWork s k = some s2) : Inv modules s2 := by
  rcases s with ⟨next, pc, sem, wtr, workers, resultC, closed, received, finished, panicked,
    stopped⟩
  obtain ⟨hnp, hlen, hbound, hinl, hcap, hsem, hsemle, hwg, hdr, hcl, hbuf, hnd, hmem, hres,
    hsnd, hfin, hstop, hfull⟩ := hi
  simp only [State.emitted] at hnp hlen hbound hinl hcap hsem hsemle hwg hdr hcl hbuf hnd hmem hres hsnd hfin hstop hfull hk
  subst hnp
  simp only [stepWork, hk] at hs
  have hslot := le_sum_map Worker.slots workers k _ hk
  simp only [Worker.slots] at hslot
  have hsz : sem ≠ 0 := by omega
  simp only [hsz, if_false] at hs
  cases hs
  have hslots := sum_map_set Worker.slots workers k _ ⟨m, .exited⟩ hk
  have hunits := sum_map_set Worker.units workers k _ ⟨m, .exited⟩ hk
  simp only [Worker.slots, Worker.units] at hslots hunits
  constructor
  case noPanic => rfl
  case len => simpa using hlen
  case bound => exact hbound
  case inLoop => exact hinl
  case captured => exact captured_set modules workers k m _ _ hcap hk
  case sem => simp only; omega
  case semLe => simp only; omega
  case wg => simp only; omega
  case drained => exact hdr
  case closedIff => exact hcl
  case buf => exact hbuf
  case nodup => exact hnd
  case mem =>
    intro j
    simp only [State.emitted]
    rw [hmem j]
    exact (sent_set_same workers k ⟨m, .semRecv⟩ ⟨m, .exited⟩ hk rfl j).symm
  case results => exact hres
  case sending =>
    apply sending_set workers k _ hsnd
    intro m2 r2 he
    cases he
  case fin => exact hfin
  case stop => exact hstop
  case full => exact hfull

theorem inv_work (modules : Modules) (s s2 : State) (k : Nat)
    (hi : Inv modules s) (hs : step modules s (.work k) = some s2) : Inv modules s2 := by
  have hnp := hi.noPanic
  simp only [step, hnp, Bool.false_eq_true, if_false] at hs
  cases hk : s.workers[k]? with
  | none => simp [stepWork, hk] at hs
  | some w =>
    obtain ⟨m, wpc⟩ := w
    cases wpc with
    | fetch => simp [stepWork, hk] at hs
    | send r => exact inv_work_send modules s s2 k m r hi hk hs
    | waiterDone => exact inv_work_done modules s s2 k m hi hk hs
    | semRecv => exact inv_work_recv modules s s2 k m hi hk hs
    | exited => simp [stepWork, hk] at hs

theorem inv_receive (modules : Modules) (s s2 : State)
    (hi : Inv modules s) (hs : step modules s .receive = some s2) : Inv modules s2 := by
  rcases s with ⟨next, pc, sem, wtr, workers, resultC, closed, received, finished, panicked,
    stopped⟩
  obtain ⟨hnp, hlen, hbound, hinl, hcap, hsem, hsemle, hwg, hdr, hcl, hbuf, hnd, hmem, hres,
    hsnd, hfin, hstop, hfull⟩ := hi
  simp only [State.emitted] at hnp hlen hbound hinl hcap hsem hsemle hwg hdr hcl hbuf hnd hmem hres hsnd hfin hstop hfull
  subst hnp
  simp only [step, Bool.false_eq_true, if_false] at hs
  cases resultC with
  | nil =>
    simp only at hs
    split at hs
    · rename_i hc
      cases hs
      constructor
      case fin => intro _; exact ⟨hc.1, rfl⟩
      all_goals first | assumption | rfl
    · cases hs
  | cons x rest =>
    simp only at hs
    cases hs
    have hemit : (received ++ [x]) ++ rest = received ++ x :: rest := by simp
    constructor
    case buf =>
      simp only [List.length_cons] at hbuf ⊢
      omega
    case nodup => simp only [State.emitted]; rw [hemit]; exact hnd
    case mem => simp only [State.emitted]; rw [hemit]; exact hmem
    case results => simp only [State.emitted]; rw [hemit]; exact hres
    case fin =>
      intro hf
      have := (hfin hf).2
      cases this
    all_goals first | assumption | rfl

/-! ## Termination, deadlock freedom, progress -/

theorem inv_step (modules : Modules) (s s2 : State) (a : Action)
    (hi : Inv modules s) (hs : step modules s a = some s2) : Inv modules s2 := by
  cases a with
  | limiterWait ok => exact inv_limiterWait modules s s2 ok hi hs
  | dispatch => exact inv_dispatch modules s s2 hi hs
  | lookup k h client => exact inv_lookup modules s s2 k h client hi hs
  | work k => exact inv_work modules s s2 k hi hs
  | receive => exact inv_receive modules s s2 hi hs

theorem inv_run (modules : Modules) (trace : List Action) :
    ∀ (s s2 : State), Inv modules s → run modules s trace = some s2 → Inv modules s2 := by
  induction trace with
  | nil =>
    intro s s2 hi hr
    simp only [run] at hr
    cases hr
    exact hi
  | cons a rest ih =>
    intro s s2 hi hr
    simp only [run] at hr
    cases hstep : step modules s a with
    | none => simp [hstep] at hr
    | some s1 =>
      simp only [hstep] at hr
      exact ih s1 s2 (inv_step modules s s1 a hi hstep) hr

theorem inv_reachable (modules : Modules) (s : State) (hr : Reachable modules s) :
    Inv modules s := by
  obtain ⟨trace, ht⟩ := hr
  exact inv_run modules trace _ _ (inv_init modules) ht

theorem step_measure (modules : Modules) (s s2 : State) (a : Action)
    (hi : Inv modules s) (hs : step modules s a = some s2) :
    s2.measure modules < s.measure modules := by
  have hi2 := inv_step modules s s2 a hi hs
  have hnp2 := hi2.noPanic
  have hnp := hi.noPanic
  have hbound := hi.bound
  have hinl := hi.inLoop
  simp only [step, hnp, Bool.false_eq_true, if_false] at hs
  cases a with
  | limiterWait ok =>
    simp only at hs
    split at hs
    · rename_i hc
      cases ok with
      | true =>
        simp only [if_true] at hs
        cases hs
        simp [State.measure, DispatchPC.rank, hc.1]
      | false =>
        simp only [Bool.false_eq_true, if_false] at hs
        cases hs
        simp [State.measure, DispatchPC.rank, hc.1]
    · cases hs
  | dispatch =>
    simp only [stepDispatch] at hs
    cases hpc : s.pc with
    | loopHead =>
      simp only [hpc] at hs
      split at hs
      · cases hs
      · cases hs
        simp [State.measure, DispatchPC.rank, hpc]
    | semSend =>
      simp only [hpc] at hs
      split at hs
      · cases hs
        simp [State.measure, DispatchPC.rank, hpc]
      · cases hs
    | waiterAdd =>
      simp only [hpc] at hs
      cases hs
      simp [State.measure, DispatchPC.rank, hpc]
    | spawn =>
      simp only [hpc] at hs
      cases hm : modules[s.next]? with
      | none => simp [hm] at hs
      | some module =>
        simp only [hm] at hs
        cases hs
        have hlt : s.next < modules.length := (List.getElem?_eq_some_iff.mp hm).1
        simp [State.measure, DispatchPC.rank, hpc, Worker.rank]
        omega
    | waiterWait =>
      simp only [hpc] at hs
      split at hs
      · cases hs
        simp [State.measure, DispatchPC.rank, hpc]
      · cases hs
    | closeC =>
      simp only [hpc] at hs
      cases hs
      simp [State.measure, DispatchPC.rank, hpc]
    | exited =>
      simp only [hpc] at hs
      cases hs
  | lookup k h client =>
    simp only at hs
    cases hk : s.workers[k]? with
    | none => simp [hk] at hs
    | some w =>
      obtain ⟨m, wpc⟩ := w
      cases wpc with
      | fetch =>
        simp only [hk] at hs
        cases hs
        have hrank := sum_map_set Worker.rank s.workers k _
          ⟨m, .send (fetchLicense h ⟨client⟩ m)⟩ hk
        simp only [Worker.rank] at hrank
        simp only [State.measure]
        omega
      | send r => simp [hk] at hs
      | waiterDone => simp [hk] at hs
      | semRecv => simp [hk] at hs
      | exited => simp [hk] at hs
  | work k =>
    simp only [stepWork] at hs
    cases hk : s.workers[k]? with
    | none => simp [hk] at hs
    | some w =>
      obtain ⟨m, wpc⟩ := w
      cases wpc with
      | fetch => simp [hk] at hs
      | send r =>
        simp only [hk] at hs
        have hrank := sum_map_set Worker.rank s.workers k _ ⟨m, .waiterDone⟩ hk
        simp only [Worker.rank] at hrank
        split at hs
        · cases hs
          simp at hnp2
        · split at hs
          · cases hs
            simp only [State.measure, List.length_append, List.length_singleton]
            omega
          · cases hs
      | waiterDone =>
        simp only [hk] at hs
        have hrank := sum_map_set Worker.rank s.workers k _ ⟨m, .semRecv⟩ hk
        simp only [Worker.rank] at hrank
        split at hs
        · cases hs
          simp at hnp2
        · cases hs
          simp only [State.measure]
          omega
      | semRecv =>
        simp only [hk] at hs
        have hrank := sum_map_set Worker.rank s.workers k _ ⟨m, .exited⟩ hk
        simp only [Worker.rank] at hrank
        split at hs
        · cases hs
        · cases hs
          simp only [State.measure]
          omega
      | exited => simp [hk] at hs
  | receive =>
    simp only at hs
    cases hres : s.resultC with
    | nil =>
      simp only [hres] at hs
      split at hs
      · rename_i hc
        cases hs
        simp [State.measure, hres, hc.2]
      · cases hs
    | cons x rest =>
      simp only [hres] at hs
      cases hs
      simp [State.measure, hres]

theorem exists_of_sum_pos (f : Worker → Nat) (l : List Worker)
    (h : 0 < (l.map f).sum) : ∃ (k : Nat) (w : Worker), l[k]? = some w ∧ 0 < f w := by
  induction l with
  | nil => simp at h
  | cons x xs ih =>
    simp only [List.map_cons, List.sum_cons] at h
    by_cases hx : 0 < f x
    · exact ⟨0, x, by simp, hx⟩
    · have hxs : 0 < (xs.map f).sum := by omega
      obtain ⟨k, w, hk, hw⟩ := ih hxs
      exact ⟨k + 1, w, by simpa using hk, hw⟩

theorem enabled_intro (modules : Modules) (s : State) (a : Action)
    (ha : a ≠ .limiterWait false) (h : (step modules s a).isSome = true) :
    ∃ (a : Action) (s2 : State), a ≠ .limiterWait false ∧ step modules s a = some s2 := by
  obtain ⟨s2, hs2⟩ := Option.isSome_iff_exists.mp h
  exact ⟨a, s2, ha, hs2⟩

/-- A worker that has not returned can take a step, or the consumer can. -/
theorem worker_enabled (modules : Modules) (s : State) (hi : Inv modules s) (k : Nat)
    (w : Worker) (hk : s.workers[k]? = some w) (hw : 0 < w.slots) :
    ∃ (a : Action) (s2 : State), a ≠ .limiterWait false ∧ step modules s a = some s2 := by
  have hnp := hi.noPanic
  obtain ⟨m, wpc⟩ := w
  cases wpc with
  | fetch =>
    apply enabled_intro modules s (.lookup k sampleLib (pageFetcher 200 plainPage).client) (by simp)
    simp only [step, hnp, Bool.false_eq_true, if_false, hk]
    rfl
  | send r =>
    have hunit := le_sum_map Worker.units s.workers k _ hk
    simp only [Worker.units] at hunit
    have hcf : s.closed = false := by
      cases hc : s.closed with
      | true =>
        have hpc : s.pc = .exited := hi.closedIff.mp hc
        have hz := hi.drained (Or.inr hpc)
        have := hi.wg
        omega
      | false => rfl
    by_cases hroom : s.resultC.length < fetchLicensesChannelSize
    · apply enabled_intro modules s (.work k) (by simp)
      simp only [step, hnp, Bool.false_eq_true, if_false, stepWork, hk, hcf, hroom, if_true]
      rfl
    · cases hres : s.resultC with
      | nil => simp [hres, fetchLicensesChannelSize] at hroom
      | cons x rest =>
        apply enabled_intro modules s (.receive) (by simp)
        simp only [step, hnp, Bool.false_eq_true, if_false, hres]
        rfl
  | waiterDone =>
    have hunit := le_sum_map Worker.units s.workers k _ hk
    simp only [Worker.units] at hunit
    have hwz : s.waiter ≠ 0 := by
      have := hi.wg
      omega
    apply enabled_intro modules s (.work k) (by simp)
    simp only [step, hnp, Bool.false_eq_true, if_false, stepWork, hk, hwz]
    rfl
  | semRecv =>
    have hslot := le_sum_map Worker.slots s.workers k _ hk
    simp only [Worker.slots] at hslot
    have hsz : s.semaphoreC ≠ 0 := by
      have := hi.sem
      omega
    apply enabled_intro modules s (.work k) (by simp)
    simp only [step, hnp, Bool.false_eq_true, if_false, stepWork, hk, hsz]
    rfl
  | exited => simp [Worker.slots] at hw

theorem units_le_slots (w : Worker) : w.units ≤ w.slots := by
  obtain ⟨m, wpc⟩ := w
  cases wpc <;> simp [Worker.units, Worker.slots]

theorem inFlight_le_slots (w : Worker) : w.inFlight ≤ w.slots := by
  obtain ⟨m, wpc⟩ := w
  cases wpc <;> simp [Worker.inFlight, Worker.slots]

/-- Deadlock freedom: as long as the consumer has not seen the end of the channel, some
action other than a failing `limiter.Wait` is enabled. -/
theorem enabled_of_not_finished (modules : Modules) (s : State) (hi : Inv modules s)
    (hf : s.finished = false) :
    ∃ (a : Action) (s2 : State), a ≠ .limiterWait false ∧ step modules s a = some s2 := by
  have hnp := hi.noPanic
  cases hpc : s.pc with
  | loopHead =>
    by_cases hlt : s.next < modules.length
    · apply enabled_intro modules s (.limiterWait true) (by simp)
      simp only [step, hnp, Bool.false_eq_true, if_false, hpc, hlt, and_self, if_true]
      rfl
    · apply enabled_intro modules s (.dispatch) (by simp)
      simp only [step, hnp, Bool.false_eq_true, if_false, stepDispatch, hpc, hlt]
      rfl
  | semSend =>
    by_cases hlt : s.semaphoreC < fetchLicensesConcurrency
    · apply enabled_intro modules s (.dispatch) (by simp)
      simp only [step, hnp, Bool.false_eq_true, if_false, stepDispatch, hpc, hlt, if_true]
      rfl
    · have hsem := hi.sem
      simp only [hpc, DispatchPC.slots, fetchLicensesConcurrency] at hsem hlt
      obtain ⟨k, w, hk, hw⟩ := exists_of_sum_pos Worker.slots s.workers (by omega)
      exact worker_enabled modules s hi k w hk hw
  | waiterAdd =>
    apply enabled_intro modules s (.dispatch) (by simp)
    simp only [step, hnp, Bool.false_eq_true, if_false, stepDispatch, hpc]
    rfl
  | spawn =>
    have hlt : s.next < modules.length := hi.inLoop (by simp [hpc, DispatchPC.inIteration])
    have hm : modules[s.next]? = some modules[s.next] := List.getElem?_eq_getElem hlt
    apply enabled_intro modules s (.dispatch) (by simp)
    simp only [step, hnp, Bool.false_eq_true, if_false, stepDispatch, hpc, hm]
    rfl
  | waiterWait =>
    by_cases hz : s.waiter = 0
    · apply enabled_intro modules s (.dispatch) (by simp)
      simp only [step, hnp, Bool.false_eq_true, if_false, stepDispatch, hpc, hz, if_true]
      rfl
    · have hwg := hi.wg
      simp only [hpc, DispatchPC.units] at hwg
      obtain ⟨k, w, hk, hw⟩ := exists_of_sum_pos Worker.units s.workers (by omega)
      have := units_le_slots w
      exact worker_enabled modules s hi k w hk (by omega)
  | closeC =>
    apply enabled_intro modules s (.dispatch) (by simp)
    simp only [step, hnp, Bool.false_eq_true, if_false, stepDispatch, hpc]
    rfl
  | exited =>
    have hc : s.closed = true := hi.closedIff.mpr hpc
    apply enabled_intro modules s .receive (by simp)
    cases hres : s.resultC with
    | nil =>
      simp only [step, hnp, Bool.false_eq_true, if_false, hres, hc, hf, not_false_eq_true,
        and_self, if_true]
      rfl
    | cons x rest =>
      simp only [step, hnp, Bool.false_eq_true, if_false, hres]
      rfl

theorem step_stopped (modules : Modules) (s s2 : State) (a : Action)
    (ha : a ≠ .limiterWait false) (hs : step modules s a = some s2) :
    s2.stopped = s.stopped := by
  unfold step at hs
  split at hs
  · cases hs
  · cases a with
    | limiterWait ok =>
      cases ok with
      | true =>
        simp only [if_true] at hs
        split at hs
        · cases hs; rfl
        · cases hs
      | false => exact absurd rfl ha
    | dispatch =>
      simp only [stepDispatch] at hs
      split at hs
      all_goals (try split at hs)
      all_goals first | (cases hs; rfl) | cases hs
    | lookup k h client =>
      simp only at hs
      split at hs
      · cases hs; rfl
      · cases hs
    | work k =>
      simp only [stepWork] at hs
      split at hs
      all_goals (try split at hs)
      all_goals (try split at hs)
      all_goals first | (cases hs; rfl) | cases hs
    | receive =>
      simp only at hs
      split at hs
      all_goals (try split at hs)
      all_goals first | (cases hs; rfl) | cases hs

/-- Progress: from every state that satisfies the invariant some run, on which
`limiter.Wait` does not fail, leads to a state in which the consumer has seen the end of
the channel. -/
theorem exists_run_to_finished (modules : Modules) (n : Nat) :
    ∀ s : State, Inv modules s → s.measure modules ≤ n →
      ∃ (trace : List Action) (s2 : State), run modules s trace = some s2
        ∧ s2.finished = true ∧ s2.stopped = s.stopped := by
  induction n with
  | zero =>
    intro s hi hm
    cases hf : s.finished with
    | true => exact ⟨[], s, rfl, hf, rfl⟩
    | false =>
      simp [State.measure, hf] at hm
  | succ n ih =>
    intro s hi hm
    cases hf : s.finished with
    | true => exact ⟨[], s, rfl, hf, rfl⟩
    | false =>
      obtain ⟨a, s1, ha, hs⟩ := enabled_of_not_finished modules s hi hf
      have hlt := step_measure modules s s1 a hi hs
      obtain ⟨trace, s2, hrun, hfin, hst⟩ :=
        ih s1 (inv_step modules s s1 a hi hs) (by omega)
      refine ⟨a :: trace, s2, ?_, hfin, ?_⟩
      · simp only [run, hs]
        exact hrun
      · rw [hst]
        exact step_stopped modules s s1 a ha hs

/-- Every run is at most as long as the measure of the state it starts in. -/
theorem run_length_le (modules : Modules) (trace : List Action) :
    ∀ (s s2 : State), Inv modules s → run modules s trace = some s2 →
      trace.length + s2.measure modules ≤ s.measure modules := by
  induction trace with
  | nil =>
    intro s s2 _ hr
    simp only [run] at hr
    cases hr
    simp
  | cons a rest ih =>
    intro s s2 hi hr
    simp only [run] at hr
    cases hstep : step modules s a with
    | none => simp [hstep] at hr
    | some s1 =>
      simp only [hstep] at hr
      have h1 := step_measure modules s s1 a hi hstep
      have h2 := ih s1 s2 (inv_step modules s s1 a hi hstep) hr
      simp only [List.length_cons]
      omega

/-! ## The emitted results -/

theorem fetchLicense_module_uri (h : HTTPLib) (f : Fetcher) (module : Module) :
    (fetchLicense h f module).Module = module
      ∧ (fetchLicense h f module).URI = licensesURL module := by
  unfold fetchLicense
  simp only [newErrLicense, newLicense]
  split
  · exact ⟨rfl, rfl⟩
  · split
    · exact ⟨rfl, rfl⟩
    · split
      · exact ⟨rfl, rfl⟩
      · split
        · exact ⟨rfl, rfl⟩
        · exact ⟨rfl, rfl⟩

theorem sum_map_le (f g : Worker → Nat) (hfg : ∀ w, f w ≤ g w) (l : List Worker) :
    (l.map f).sum ≤ (l.map g).sum := by
  induction l with
  | nil => simp
  | cons x xs ih =>
    simp only [List.map_cons, List.sum_cons]
    have := hfg x
    omega

theorem sent_of_units_zero (w : Worker) (h : w.units = 0) : w.sent = true := by
  obtain ⟨m, wpc⟩ := w
  cases wpc <;> simp [Worker.units, Worker.sent] at h ⊢

/-- Once the channel is closed, the emitted results are those of all launched workers. -/
theorem emitted_perm_of_closed (modules : Modules) (s : State) (hi : Inv modules s)
    (hc : s.closed = true) :
    List.Perm (s.emitted.map Prod.fst) (List.range s.next) := by
  have hpc : s.pc = .exited := hi.closedIff.mp hc
  have hz := hi.drained (Or.inr hpc)
  have hwg := hi.wg
  have hsum : (s.workers.map Worker.units).sum = 0 := by omega
  have hall := sum_map_eq_zero Worker.units s.workers hsum
  apply (List.perm_ext_iff_of_nodup hi.nodup (List.nodup_range _)).mpr
  intro k
  rw [hi.mem k, List.mem_range, ← hi.len]
  constructor
  · rintro ⟨w, hw, _⟩
    exact (List.getElem?_eq_some_iff.mp hw).1
  · intro hk
    refine ⟨s.workers[k], List.getElem?_eq_getElem hk, ?_⟩
    exact sent_of_units_zero _ (hall _ (List.getElem_mem hk))

theorem results_spec (modules : Modules) (s : State) (hi : Inv modules s) :
    ∀ (k : Nat) (r : License), (k, r) ∈ s.emitted →
      ∃ (m : Module) (h : HTTPLib) (c : HTTPClient), modules[k]? = some m
        ∧ r = fetchLicense h ⟨c⟩ m ∧ r.Module = m ∧ r.URI = licensesURL m := by
  intro k r hkr
  obtain ⟨m, h, c, hm, hr⟩ := hi.results k r hkr
  refine ⟨m, h, c, hm, hr, ?_, ?_⟩
  · rw [hr]; exact (fetchLicense_module_uri h ⟨c⟩ m).1
  · rw [hr]; exact (fetchLicense_module_uri h ⟨c⟩ m).2

theorem launched_eq_take (modules : Modules) (s : State) (hi : Inv modules s) :
    s.workers.map Worker.module = modules.take s.next := by
  apply List.ext_getElem?
  intro k
  rw [List.getElem?_map, List.getElem?_take]
  by_cases hk : k < s.next
  · rw [if_pos hk]
    have hk2 : k < s.workers.length := by rw [hi.len]; exact hk
    have hw : s.workers[k]? = some s.workers[k] := List.getElem?_eq_getElem hk2
    rw [hw, hi.captured k _ hw]
    rfl
  · rw [if_neg hk]
    have hk2 : s.workers.length ≤ k := by rw [hi.len]; omega
    rw [List.getElem?_eq_none hk2]
    rfl

theorem finished_received (modules : Modules) (s : State) (hi : Inv modules s)
    (hf : s.finished = true) : s.closed = true ∧ s.received = s.emitted := by
  obtain ⟨hc, hres⟩ := hi.fin hf
  exact ⟨hc, by simp [State.emitted, hres]⟩

/-! ## The claims -/

/-- C1 (counterexample): with two modules and a context that is cancelled before the
first `limiter.Wait` returns, the channel is closed after zero results. -/
theorem FetchLicenses_yields_all_counterexample :
    Reachable sampleModules cancelledFinal
      ∧ cancelledFinal.closed = true
      ∧ cancelledFinal.finished = true
      ∧ cancelledFinal.emitted = []
      ∧ sampleModules.length = 2
      ∧ ¬ (∀ (modules : Modules) (s : State), Reachable modules s → s.closed = true →
            s.emitted.length = modules.length) := by
  have hr : Reachable sampleModules cancelledFinal := ⟨cancelledTrace, rfl⟩
  refine ⟨hr, rfl, rfl, rfl, rfl, ?_⟩
  intro hall
  have := hall sampleModules cancelledFinal hr rfl
  simp [State.emitted, cancelledFinal, sampleModules] at this

/-- C1 (amended): when no call of `limiter.Wait` returns an error, no goroutine panics;
once the channel is closed exactly one result per input module has been emitted, each
being the result of the lookup of its module and carrying the module and its lookup URL;
the consumer that has seen the end of the channel has received all of them; a step is
always possible until then, every run is finite, and some run reaches that end. -/
theorem FetchLicenses_yields_all (modules : Modules) (s : State)
    (hr : Reachable modules s) (hok : s.stopped = none) :
    s.panicked = false
      ∧ (s.closed = true →
          List.Perm (s.emitted.map Prod.fst) (List.range modules.length)
          ∧ s.emitted.length = modules.length
          ∧ ∀ (k : Nat) (r : License), (k, r) ∈ s.emitted →
              ∃ (m : Module) (h : HTTPLib) (c : HTTPClient), modules[k]? = some m
                ∧ r = fetchLicense h ⟨c⟩ m ∧ r.Module = m ∧ r.URI = licensesURL m)
      ∧ (s.finished = true → s.closed = true ∧ s.received = s.emitted)
      ∧ (s.finished = false →
          ∃ (a : Action) (s2 : State), a ≠ .limiterWait false ∧ step modules s a = some s2)
      ∧ (∀ (trace : List Action) (s2 : State), run modules s trace = some s2 →
          trace.length ≤ s.measure modules)
      ∧ (∃ (trace : List Action) (s2 : State), run modules s trace = some s2
          ∧ s2.stopped = none ∧ s2.finished = true ∧ s2.closed = true
          ∧ s2.received.length = modules.length
          ∧ List.Perm (s2.received.map Prod.fst) (List.range modules.length)) := by
  have hi := inv_reachable modules s hr
  have key : ∀ t : State, Inv modules t → t.stopped = none → t.closed = true →
      List.Perm (t.emitted.map Prod.fst) (List.range modules.length) := by
    intro t ht hst hc
    have hpc : t.pc = .exited := ht.closedIff.mp hc
    have hn : t.next = modules.length := ht.full hst (by simp [hpc, DispatchPC.afterLoop])
    rw [← hn]
    exact emitted_perm_of_closed modules t ht hc
  refine ⟨hi.noPanic, ?_, finished_received modules s hi, enabled_of_not_finished modules s hi,
    ?_, ?_⟩
  · intro hc
    have hperm := key s hi hok hc
    refine ⟨hperm, ?_, results_spec modules s hi⟩
    have := hperm.length_eq
    simpa using this
  · intro trace s2 hrun
    have := run_length_le modules trace s s2 hi hrun
    omega
  · obtain ⟨trace, s2, hrun, hfin, hst⟩ := exists_run_to_finished modules _ s hi (le_refl _)
    have hi2 := inv_run modules trace s s2 hi hrun
    obtain ⟨hc2, hrec⟩ := finished_received modules s2 hi2 hfin
    have hperm := key s2 hi2 (by rw [hst]; exact hok) hc2
    rw [← hrec] at hperm
    refine ⟨trace, s2, hrun, by rw [hst]; exact hok, hfin, hc2, ?_, hperm⟩
    have := hperm.length_eq
    simpa using this

/-- Witness for C1 (amended): the end of the sample run over two modules. -/
theorem FetchLicenses_yields_all_witness :
    Reachable sampleModules sampleFinal ∧ sampleFinal.stopped = none
      ∧ sampleFinal.closed = true
      ∧ List.Perm (sampleFinal.emitted.map Prod.fst) (List.range sampleModules.length)
      ∧ sampleFinal.emitted.length = sampleModules.length :=
  ⟨⟨sampleTrace, rfl⟩, rfl, rfl,
    ((FetchLicenses_yields_all sampleModules sampleFinal ⟨sampleTrace, rfl⟩ rfl).2.1 rfl).1,
    ((FetchLicenses_yields_all sampleModules sampleFinal ⟨sampleTrace, rfl⟩ rfl).2.1 rfl).2.1⟩

/-- C2: the lookup URL is `https://pkg.go.dev/` followed by the path, by `@` and the
version exactly when the version is not empty, and by `?tab=licenses`; the fields
`Indirect` and `Error` of the module have no influence on it. -/
theorem licensesURL_spec (path version : String) (indirect : Bool) (err : Option String) :
    licensesURL ⟨path, version, indirect, err⟩
        = "https://pkg.go.dev/" ++ path ++ (if version ≠ "" then "@" ++ version else "")
            ++ "?tab=licenses"
      ∧ ∀ (indirect2 : Bool) (err2 : Option String),
          licensesURL ⟨path, version, indirect2, err2⟩
            = licensesURL ⟨path, version, indirect, err⟩ := by
  constructor
  · unfold licensesURL
    by_cases hv : version = ""
    · simp [hv]
    · simp [hv, String.append_assoc]
  · intro i2 e2
    rfl

/-- C3 (the code at the failing input): on the page whose `License-source` element has
the text `Source: cmd/LICENSE` the worker returns the source `md/LICENSE`: the call of
`strings.TrimLeft` with the cutset `Source: ` also removes the leading `c` of the path
`cmd/LICENSE`. -/
theorem fetchLicense_source_overtrimmed :
    (fetchLicense sampleLib (pageFetcher 200 (licensePage "#lic-0" "Source: cmd/LICENSE"))
        sampleModule).Err = none
      ∧ (fetchLicense sampleLib (pageFetcher 200 (licensePage "#lic-0" "Source: cmd/LICENSE"))
        sampleModule).Source = "md/LICENSE"
      ∧ (fetchLicense sampleLib (pageFetcher 200 (licensePage "#lic-0" "Source: cmd/LICENSE"))
        sampleModule).Source ≠ "cmd/LICENSE" := by
  decide

/-- C4 (counterexample): a page whose element with id `lic-0` has the text `MIT` gives
the empty type; and a page with two elements of class `License-contents`, with the texts
`first` and `second` (its type `MIT` being the text both of an element with the id
attribute `lic-0` and of one with the id attribute `#lic-0`), gives the content
`firstsecond`. -/
theorem fetchLicense_type_content_counterexample :
    ((List.filter (hasId "lic-0") (licensePage "lic-0" "Source: LICENSE").nodes).map getNodeText
          = ["MIT"]
      ∧ (List.filter (hasClass "License-contents")
            (licensePage "lic-0" "Source: LICENSE").nodes).map getNodeText
          = ["MIT License text..."]
      ∧ (fetchLicense sampleLib (pageFetcher 200 (licensePage "lic-0" "Source: LICENSE"))
          sampleModule).Type = ""
      ∧ (fetchLicense sampleLib (pageFetcher 200 (licensePage "lic-0" "Source: LICENSE"))
          sampleModule).Type ≠ "MIT")
    ∧ ((List.filter (hasId "lic-0") twoContentsPage.nodes).map getNodeText = ["MIT"]
      ∧ (List.filter (hasId "#lic-0") twoContentsPage.nodes).map getNodeText = ["MIT"]
      ∧ (List.filter (hasClass "License-contents") twoContentsPage.nodes).map getNodeText
          = ["first", "second"]
      ∧ (fetchLicense sampleLib (pageFetcher 200 twoContentsPage) sampleModule).Err = none
      ∧ (fetchLicense sampleLib (pageFetcher 200 twoContentsPage) sampleModule).Type = "MIT"
      ∧ (fetchLicense sampleLib (pageFetcher 200 twoContentsPage) sampleModule).Content
          = "firstsecond"
      ∧ (fetchLicense sampleLib (pageFetcher 200 twoContentsPage) sampleModule).Content
          ≠ "first") := by
  decide

/-- C4 (amended): when the page returned with status 200 has exactly one element whose
id attribute is `#lic-0` and exactly one element of class `License-contents`, the worker
returns a success whose type and content are the texts of these two elements; the page
with the texts `MIT`, `Source: LICENSE` and `MIT License text...` gives the type `MIT`,
the source `LICENSE` and the content `MIT License text...`. -/
theorem fetchLicense_type_content :
    (∀ (h : HTTPLib) (f : Fetcher) (module : Module) (req : Request) (resp : Response)
        (doc : Document) (eT eC : Node),
        h.NewRequestWithContext MethodGet (licensesURL module) = .ok req →
        f.client.Do req = .ok resp →
        resp.StatusCode = 200 →
        resp.Body = .ok doc →
        List.filter (hasId "#lic-0") doc.nodes = [eT] →
        List.filter (hasClass "License-contents") doc.nodes = [eC] →
        (fetchLicense h f module).Err = none
          ∧ (fetchLicense h f module).Type = getNodeText eT
          ∧ (fetchLicense h f module).Content = getNodeText eC)
    ∧ (fetchLicense sampleLib (pageFetcher 200 (licensePage "#lic-0" "Source: LICENSE"))
          sampleModule).Err = none
    ∧ (fetchLicense sampleLib (pageFetcher 200 (licensePage "#lic-0" "Source: LICENSE"))
          sampleModule).Type = "MIT"
    ∧ (fetchLicense sampleLib (pageFetcher 200 (licensePage "#lic-0" "Source: LICENSE"))
          sampleModule).Source = "LICENSE"
    ∧ (fetchLicense sampleLib (pageFetcher 200 (licensePage "#lic-0" "Source: LICENSE"))
          sampleModule).Content = "MIT License text..." := by
  refine ⟨?_, by decide, by decide, by decide, by decide⟩
  intro h f module req resp doc eT eC hreq hdo hst hbody hT hC
  have hst2 : ¬ resp.StatusCode ≠ StatusOK := by simp [StatusOK, hst]
  simp only [fetchLicense, hreq, hdo, hbody, if_neg hst2, newLicense, License.Err, License.Type,
    License.Content, Find_type, Find_contents, hT, hC, Text_single, and_self]

/-- Witness for C4 (amended): the general statement at the sample license page. -/
theorem fetchLicense_type_content_witness :
    List.filter (hasId "#lic-0") (licensePage "#lic-0" "Source: LICENSE").nodes
        = [.element "div" [("id", "#lic-0")] [.text "MIT"]]
      ∧ (fetchLicense sampleLib (pageFetcher 200 (licensePage "#lic-0" "Source: LICENSE"))
          sampleModule).Err = none
      ∧ (fetchLicense sampleLib (pageFetcher 200 (licensePage "#lic-0" "Source: LICENSE"))
          sampleModule).Type = getNodeText (.element "div" [("id", "#lic-0")] [.text "MIT"])
      ∧ (fetchLicense sampleLib (pageFetcher 200 (licensePage "#lic-0" "Source: LICENSE"))
          sampleModule).Content
          = getNodeText (.element "pre" [("class", "License-contents")]
              [.text "MIT License text..."]) :=
  ⟨by simp [licensePage, Document.nodes, nodesOfList, Node.nodes, List.filter, hasId],
   fetchLicense_type_content.1 sampleLib
    (pageFetcher 200 (licensePage "#lic-0" "Source: LICENSE")) sampleModule
    ⟨MethodGet, licensesURL sampleModule⟩ ⟨200, .ok (licensePage "#lic-0" "Source: LICENSE")⟩
    (licensePage "#lic-0" "Source: LICENSE")
    (.element "div" [("id", "#lic-0")] [.text "MIT"])
    (.element "pre" [("class", "License-contents")] [.text "MIT License text..."])
    rfl rfl rfl rfl
    (by simp [licensePage, Document.nodes, nodesOfList, Node.nodes, List.filter, hasId])
    (by simp [licensePage, Document.nodes, nodesOfList, Node.nodes, List.filter, hasClass,
      List.splitOnP, List.splitOnP.go, isClassSep])⟩

/-- C5: a response with a status code other than 200 gives a failure whose error wraps
`ErrStatusNotOK`, whose message is `status not ok ` followed by the code in decimal (so
`status not ok 404` for 404), and whose source, content and type are empty. -/
theorem fetchLicense_status_not_ok (h : HTTPLib) (f : Fetcher) (module : Module)
    (req : Request) (resp : Response)
    (hreq : h.NewRequestWithContext MethodGet (licensesURL module) = .ok req)
    (hdo : f.client.Do req = .ok resp)
    (hst : resp.StatusCode ≠ 200) :
    ∃ e : GoError, (fetchLicense h f module).Err = some e
      ∧ GoError.Is e ErrStatusNotOK = true
      ∧ e.Unwrap = some ErrStatusNotOK
      ∧ e.Error = "status not ok " ++ fmtInt resp.StatusCode
      ∧ (resp.StatusCode = 404 → e.Error = "status not ok 404")
      ∧ (fetchLicense h f module).Source = ""
      ∧ (fetchLicense h f module).Content = ""
      ∧ (fetchLicense h f module).Type = "" := by
  have hst2 : resp.StatusCode ≠ StatusOK := by simpa [StatusOK] using hst
  refine ⟨Errorf "" ErrStatusNotOK (" " ++ fmtInt resp.StatusCode), ?_, ?_, ?_, ?_, ?_, ?_, ?_, ?_⟩
  · simp only [fetchLicense, hreq, hdo, if_pos hst2, newErrLicense, License.Err]
  · simp [Errorf, GoError.Is, ErrStatusNotOK]
  · simp [Errorf, GoError.Unwrap]
  · simp [Errorf, GoError.Error, ErrStatusNotOK, String.append_assoc]
    rfl
  · intro h404
    rw [h404]
    decide
  · simp only [fetchLicense, hreq, hdo, if_pos hst2, newErrLicense, License.Source]
  · simp only [fetchLicense, hreq, hdo, if_pos hst2, newErrLicense, License.Content]
  · simp only [fetchLicense, hreq, hdo, if_pos hst2, newErrLicense, License.Type]

/-- Witness for C5: a client that answers 404. -/
theorem fetchLicense_status_not_ok_witness :
    ∃ e : GoError,
      (fetchLicense sampleLib (pageFetcher 404 plainPage) sampleModule).Err = some e
      ∧ GoError.Is e ErrStatusNotOK = true
      ∧ e.Unwrap = some ErrStatusNotOK
      ∧ e.Error = "status not ok " ++ fmtInt 404
      ∧ ((404 : Int) = 404 → e.Error = "status not ok 404")
      ∧ (fetchLicense sampleLib (pageFetcher 404 plainPage) sampleModule).Source = ""
      ∧ (fetchLicense sampleLib (pageFetcher 404 plainPage) sampleModule).Content = ""
      ∧ (fetchLicense sampleLib (pageFetcher 404 plainPage) sampleModule).Type = "" :=
  fetchLicense_status_not_ok sampleLib (pageFetcher 404 plainPage) sampleModule
    ⟨MethodGet, licensesURL sampleModule⟩ ⟨404, .ok plainPage⟩ rfl rfl (by decide)

/-- C6: the result of a lookup carries the module and the lookup URL; it is either a
success (no error) or a failure (an error, and empty source, content and type); and it is
a failure exactly when the request cannot be built, the client returns an error, the
status is not 200, or the body cannot be parsed. -/
theorem fetchLicense_result_variants (h : HTTPLib) (f : Fetcher) (module : Module) :
    (fetchLicense h f module).Module = module
      ∧ (fetchLicense h f module).URI = licensesURL module
      ∧ ((∃ source content typ,
            fetchLicense h f module = .license (licensesURL module) module source content typ
            ∧ (fetchLicense h f module).Err = none)
          ∨ (∃ e, fetchLicense h f module = .errLicense (licensesURL module) module e
            ∧ (fetchLicense h f module).Err = some e
            ∧ (fetchLicense h f module).Source = ""
            ∧ (fetchLicense h f module).Content = ""
            ∧ (fetchLicense h f module).Type = ""))
      ∧ ((fetchLicense h f module).Err ≠ none ↔
          ((∃ e, h.NewRequestWithContext MethodGet (licensesURL module) = .error e)
            ∨ (∃ req e, h.NewRequestWithContext MethodGet (licensesURL module) = .ok req
                ∧ f.client.Do req = .error e)
            ∨ (∃ req resp, h.NewRequestWithContext MethodGet (licensesURL module) = .ok req
                ∧ f.client.Do req = .ok resp ∧ resp.StatusCode ≠ 200)
            ∨ (∃ req resp e, h.NewRequestWithContext MethodGet (licensesURL module) = .ok req
                ∧ f.client.Do req = .ok resp ∧ resp.StatusCode = 200
                ∧ resp.Body = .error e))) := by
  cases hreq : h.NewRequestWithContext MethodGet (licensesURL module) with
  | error e =>
    have hf : fetchLicense h f module
        = .errLicense (licensesURL module) module (Errorf "new http req " e "") := by
      simp only [fetchLicense, hreq, newErrLicense]
    rw [hf]
    simp [License.Module, License.URI, License.Err, License.Source, License.Content,
      License.Type]
  | ok req =>
    cases hdo : f.client.Do req with
    | error e =>
      have hf : fetchLicense h f module
          = .errLicense (licensesURL module) module (Errorf "do http req " e "") := by
        simp only [fetchLicense, hreq, hdo, newErrLicense]
      rw [hf]
      simp [hdo, License.Module, License.URI, License.Err, License.Source, License.Content,
        License.Type]
    | ok resp =>
      by_cases hst : resp.StatusCode = 200
      · have hst2 : ¬ resp.StatusCode ≠ StatusOK := by simp [StatusOK, hst]
        cases hbody : resp.Body with
        | error e =>
          have hf : fetchLicense h f module
              = .errLicense (licensesURL module) module (Errorf "new doc reader " e "") := by
            simp only [fetchLicense, hreq, hdo, hbody, if_neg hst2, newErrLicense]
          rw [hf]
          simp [hdo, hst, hbody, License.Module, License.URI, License.Err, License.Source,
            License.Content, License.Type]
        | ok doc =>
          have hf : fetchLicense h f module
              = .license (licensesURL module) module
                  (TrimLeft (Text (doc.Find ".License-source")) "Source: ")
                  (Text (doc.Find ".License-contents")) (Text (doc.Find "#\\#lic-0")) := by
            simp only [fetchLicense, hreq, hdo, hbody, if_neg hst2, newLicense]
          rw [hf]
          simp [hdo, hst, hbody, License.Module, License.URI, License.Err]
      · have hst2 : resp.StatusCode ≠ StatusOK := by simpa [StatusOK] using hst
        have hf : fetchLicense h f module
            = .errLicense (licensesURL module) module
                (Errorf "" ErrStatusNotOK (" " ++ fmtInt resp.StatusCode)) := by
          simp only [fetchLicense, hreq, hdo, if_pos hst2, newErrLicense]
        rw [hf]
        simp [hdo, hst, License.Module, License.URI, License.Err, License.Source,
          License.Content, License.Type]

/-- C7: when `limiter.Wait` returns an error as the loop reaches index `i`, workers have
been launched for exactly the first `i` modules and none is launched later; no goroutine
panics; once the channel is closed exactly the results of these `i` workers have been
emitted; a step is always possible until the consumer has seen the end of the channel,
every run is finite, and some run reaches that end with `i` results received; for
`i = 0` nothing is ever emitted. -/
theorem FetchLicenses_limiter_error (modules : Modules) (s : State) (i : Nat)
    (hr : Reachable modules s) (hstop : s.stopped = some i) :
    i < modules.length
      ∧ s.panicked = false
      ∧ s.workers.map Worker.module = modules.take i
      ∧ (∀ (trace : List Action) (s2 : State), run modules s trace = some s2 →
          s2.stopped = some i ∧ s2.workers.map Worker.module = modules.take i
          ∧ trace.length ≤ s.measure modules)
      ∧ (s.closed = true →
          List.Perm (s.emitted.map Prod.fst) (List.range i)
          ∧ s.emitted.length = i
          ∧ ∀ (k : Nat) (r : License), (k, r) ∈ s.emitted →
              ∃ (m : Module) (h : HTTPLib) (c : HTTPClient), modules[k]? = some m
                ∧ r = fetchLicense h ⟨c⟩ m ∧ r.Module = m ∧ r.URI = licensesURL m)
      ∧ (s.finished = true → s.closed = true ∧ s.received = s.emitted)
      ∧ (s.finished = false →
          ∃ (a : Action) (s2 : State), a ≠ .limiterWait false ∧ step modules s a = some s2)
      ∧ (∃ (trace : List Action) (s2 : State), run modules s trace = some s2
          ∧ s2.stopped = some i ∧ s2.finished = true ∧ s2.closed = true
          ∧ s2.received.length = i)
      ∧ (i = 0 → s.emitted = []) := by
  have hi := inv_reachable modules s hr
  obtain ⟨hafter, hnext, hlt⟩ := hi.stop i hstop
  have hkeep : ∀ (trace : List Action) (t t2 : State), Inv modules t → t.stopped = some i →
      run modules t trace = some t2 → t2.stopped = some i := by
    intro trace
    induction trace with
    | nil =>
      intro t t2 _ hst hrun
      simp only [run] at hrun
      cases hrun
      exact hst
    | cons a rest ih =>
      intro t t2 ht hst hrun
      simp only [run] at hrun
      cases hstep : step modules t a with
      | none => simp [hstep] at hrun
      | some t1 =>
        simp only [hstep] at hrun
        have ha : a ≠ .limiterWait false := by
          intro e
          subst e
          have hpc := (ht.stop i hst).1
          simp only [step, ht.noPanic, Bool.false_eq_true, if_false] at hstep
          split at hstep
          · rename_i hc
            rw [hc.1] at hpc
            simp [DispatchPC.afterLoop] at hpc
          · cases hstep
        have hst1 : t1.stopped = some i := by
          rw [step_stopped modules t t1 a ha hstep]
          exact hst
        exact ih t1 t2 (inv_step modules t t1 a ht hstep) hst1 hrun
  have key : ∀ t : State, Inv modules t → t.stopped = some i → t.closed = true →
      List.Perm (t.emitted.map Prod.fst) (List.range i) := by
    intro t ht hst hc
    have hn : t.next = i := (ht.stop i hst).2.1
    rw [← hn]
    exact emitted_perm_of_closed modules t ht hc
  have hlaunch : ∀ t : State, Inv modules t → t.stopped = some i →
      t.workers.map Worker.module = modules.take i := by
    intro t ht hst
    have hn : t.next = i := (ht.stop i hst).2.1
    rw [← hn]
    exact launched_eq_take modules t ht
  refine ⟨hlt, hi.noPanic, hlaunch s hi hstop, ?_, ?_, finished_received modules s hi,
    enabled_of_not_finished modules s hi, ?_, ?_⟩
  · intro trace s2 hrun
    have hi2 := inv_run modules trace s s2 hi hrun
    have hst2 := hkeep trace s s2 hi hstop hrun
    have := run_length_le modules trace s s2 hi hrun
    exact ⟨hst2, hlaunch s2 hi2 hst2, by omega⟩
  · intro hc
    have hperm := key s hi hstop hc
    refine ⟨hperm, ?_, results_spec modules s hi⟩
    have := hperm.length_eq
    simpa using this
  · obtain ⟨trace, s2, hrun, hfin, hst⟩ := exists_run_to_finished modules _ s hi (le_refl _)
    have hi2 := inv_run modules trace s s2 hi hrun
    have hst2 : s2.stopped = some i := by rw [hst]; exact hstop
    obtain ⟨hc2, hrec⟩ := finished_received modules s2 hi2 hfin
    have hperm := key s2 hi2 hst2 hc2
    rw [← hrec] at hperm
    refine ⟨trace, s2, hrun, hst2, hfin, hc2, ?_⟩
    have := hperm.length_eq
    simpa using this
  · intro hi0
    subst hi0
    have hw : s.workers = [] := by
      apply List.eq_nil_of_length_eq_zero
      rw [hi.len, hnext]
    cases hem : s.emitted with
    | nil => rfl
    | cons x rest =>
      have hx : x.1 ∈ s.emitted.map Prod.fst := by simp [hem]
      obtain ⟨w, hw2, _⟩ := (hi.mem x.1).mp hx
      simp [hw] at hw2

/-- Witness for C7: the limiter fails at the second module, and at the first. -/
theorem FetchLicenses_limiter_error_witness :
    (Reachable sampleModules stoppedFinal ∧ stoppedFinal.stopped = some 1
      ∧ stoppedFinal.workers.map Worker.module = sampleModules.take 1
      ∧ stoppedFinal.emitted.length = 1)
    ∧ (Reachable sampleModules cancelledFinal ∧ cancelledFinal.stopped = some 0
      ∧ cancelledFinal.emitted = []) :=
  ⟨⟨⟨stoppedTrace, rfl⟩, rfl,
    (FetchLicenses_limiter_error sampleModules stoppedFinal 1 ⟨stoppedTrace, rfl⟩ rfl).2.2.1,
    ((FetchLicenses_limiter_error sampleModules stoppedFinal 1
      ⟨stoppedTrace, rfl⟩ rfl).2.2.2.2.1 rfl).2.1⟩,
   ⟨⟨cancelledTrace, rfl⟩, rfl,
    (FetchLicenses_limiter_error sampleModules cancelledFinal 0
      ⟨cancelledTrace, rfl⟩ rfl).2.2.2.2.2.2.2.2 rfl⟩⟩

/-- C8 (counterexample): the page `hashIdPage`, returned with status 200, has no element
with the id attribute `lic-0`, no element of class `License-source` and no element of
class `License-contents`, and the worker returns a success whose type is `MIT`, not the
empty string: the selector of the code matches the id attribute `#lic-0`. -/
theorem fetchLicense_missing_elements_counterexample :
    (List.filter (hasId "lic-0") hashIdPage.nodes).length = 0
      ∧ (List.filter (hasClass "License-source") hashIdPage.nodes).length = 0
      ∧ (List.filter (hasClass "License-contents") hashIdPage.nodes).length = 0
      ∧ (List.filter (hasId "#lic-0") hashIdPage.nodes).map getNodeText = ["MIT"]
      ∧ (fetchLicense sampleLib (pageFetcher 200 hashIdPage) sampleModule).Err = none
      ∧ (fetchLicense sampleLib (pageFetcher 200 hashIdPage) sampleModule).Source = ""
      ∧ (fetchLicense sampleLib (pageFetcher 200 hashIdPage) sampleModule).Content = ""
      ∧ (fetchLicense sampleLib (pageFetcher 200 hashIdPage) sampleModule).Type = "MIT"
      ∧ (fetchLicense sampleLib (pageFetcher 200 hashIdPage) sampleModule).Type ≠ "" := by
  decide

/-- C8 (amended): a page returned with status 200 that parses and has no element with the
id attribute `#lic-0`, no element of class `License-source` and no element of class
`License-contents` gives a success whose source, content and type are empty. -/
theorem fetchLicense_missing_elements (h : HTTPLib) (f : Fetcher) (module : Module)
    (req : Request) (resp : Response) (doc : Document)
    (hreq : h.NewRequestWithContext MethodGet (licensesURL module) = .ok req)
    (hdo : f.client.Do req = .ok resp)
    (hst : resp.StatusCode = 200)
    (hbody : resp.Body = .ok doc)
    (hT : ∀ n ∈ doc.nodes, hasId "#lic-0" n = false)
    (hS : ∀ n ∈ doc.nodes, hasClass "License-source" n = false)
    (hC : ∀ n ∈ doc.nodes, hasClass "License-contents" n = false) :
    (fetchLicense h f module).Err = none
      ∧ fetchLicense h f module = .license (licensesURL module) module "" "" ""
      ∧ (fetchLicense h f module).Source = ""
      ∧ (fetchLicense h f module).Content = ""
      ∧ (fetchLicense h f module).Type = "" := by
  have hst2 : ¬ resp.StatusCode ≠ StatusOK := by simp [StatusOK, hst]
  have e1 : List.filter (hasId "#lic-0") doc.nodes = [] :=
    List.filter_eq_nil_iff.mpr (fun n hn => by simp [hT n hn])
  have e2 : List.filter (hasClass "License-source") doc.nodes = [] :=
    List.filter_eq_nil_iff.mpr (fun n hn => by simp [hS n hn])
  have e3 : List.filter (hasClass "License-contents") doc.nodes = [] :=
    List.filter_eq_nil_iff.mpr (fun n hn => by simp [hC n hn])
  have ht : TrimLeft "" "Source: " = "" := by decide
  simp only [fetchLicense, hreq, hdo, hbody, if_neg hst2, newLicense, License.Err,
    License.Type, License.Content, License.Source, Find_type, Find_contents, Find_source,
    e1, e2, e3, Text_nil, ht, and_self]

/-- Witness for C8 (amended): the page `plainPage`. -/
theorem fetchLicense_missing_elements_witness :
    (fetchLicense sampleLib (pageFetcher 200 plainPage) sampleModule).Err = none
      ∧ fetchLicense sampleLib (pageFetcher 200 plainPage) sampleModule
          = .license (licensesURL sampleModule) sampleModule "" "" ""
      ∧ (fetchLicense sampleLib (pageFetcher 200 plainPage) sampleModule).Source = ""
      ∧ (fetchLicense sampleLib (pageFetcher 200 plainPage) sampleModule).Content = ""
      ∧ (fetchLicense sampleLib (pageFetcher 200 plainPage) sampleModule).Type = "" :=
  fetchLicense_missing_elements sampleLib (pageFetcher 200 plainPage) sampleModule
    ⟨MethodGet, licensesURL sampleModule⟩ ⟨200, .ok plainPage⟩ plainPage rfl rfl rfl rfl
    (by decide) (by decide) (by decide)

/-- C9: in every reachable state at most `fetchLicensesConcurrency = 2` lookups are past
the send on `semaphoreC` and before the end of the send of their result on `resultC`. -/
theorem FetchLicenses_concurrency_bound (modules : Modules) (s : State)
    (hr : Reachable modules s) :
    s.inFlight ≤ fetchLicensesConcurrency ∧ fetchLicensesConcurrency = 2
      ∧ s.inFlight ≤ s.semaphoreC ∧ s.semaphoreC ≤ fetchLicensesConcurrency := by
  have hi := inv_reachable modules s hr
  have hsem := hi.sem
  have hle := hi.semLe
  have hsum := sum_map_le Worker.inFlight Worker.slots inFlight_le_slots s.workers
  have hd : (if s.pc = .waiterAdd ∨ s.pc = .spawn then 1 else 0) ≤ s.pc.slots := by
    cases hpc : s.pc <;> simp [DispatchPC.slots]
  have hin : s.inFlight ≤ s.semaphoreC := by
    simp only [State.inFlight]
    omega
  exact ⟨le_trans hin hle, rfl, hin, hle⟩

/-- Witness for C9: after nine actions of the sample run two lookups are in flight. -/
theorem FetchLicenses_concurrency_bound_witness :
    Reachable sampleModules sampleMid ∧ sampleMid.inFlight = 2
      ∧ sampleMid.inFlight ≤ fetchLicensesConcurrency :=
  ⟨⟨sampleTrace.take 9, rfl⟩, rfl,
    (FetchLicenses_concurrency_bound sampleModules sampleMid ⟨sampleTrace.take 9, rfl⟩).1⟩

/-- C10: `filterModules` keeps, in input order and unchanged, exactly the modules
without a loading error that, when the flag is set, are not indirect; this is
`Modules.Filter` with the conjunction of the two predicates; `RemoveIndirect` and
`RemoveError` commute and each is idempotent. -/
theorem filterModules_spec (ignoreIndirect : Bool) (ms : Modules) :
    filterModules ignoreIndirect ms
        = List.filter (fun x => x.Error == none && (!ignoreIndirect || !x.Indirect)) ms
      ∧ filterModules ignoreIndirect ms
        = Modules.Filter ms (fun x => (!ignoreIndirect || !x.Indirect) && x.Error == none)
      ∧ List.Sublist (filterModules ignoreIndirect ms) ms
      ∧ Modules.RemoveIndirect (Modules.RemoveError ms)
        = Modules.RemoveError (Modules.RemoveIndirect ms)
      ∧ Modules.RemoveError (Modules.RemoveError ms) = Modules.RemoveError ms
      ∧ Modules.RemoveIndirect (Modules.RemoveIndirect ms) = Modules.RemoveIndirect ms := by
  have key : filterModules ignoreIndirect ms
      = List.filter (fun x => x.Error == none && (!ignoreIndirect || !x.Indirect)) ms := by
    cases ignoreIndirect <;>
      simp [filterModules, Modules.RemoveError, Modules.RemoveIndirect, Filter_eq_filter,
        List.filter_filter]
  refine ⟨key, ?_, ?_, ?_, ?_, ?_⟩
  · rw [key, Filter_eq_filter]
    congr 1
    funext x
    exact Bool.and_comm _ _
  · rw [key]
    exact List.filter_sublist ms
  · simp only [Modules.RemoveError, Modules.RemoveIndirect, Filter_eq_filter,
      List.filter_filter]
    congr 1
    funext x
    exact Bool.and_comm _ _
  · simp [Modules.RemoveError, Filter_eq_filter, List.filter_filter]
  · simp [Modules.RemoveIndirect, Filter_eq_filter, List.filter_filter]

end FindLicense
